import Mathlib

/-!
Shallow embedding of the Taifho game engine (move validation, move
generation, evaluation, Zobrist hashing, transposition table, position
history, minimax and MCTS search) together with theorems settling the
specification claims.  JavaScript numbers are modelled as `ℤ`/`ℕ` where the
source only holds integers and as `ℚ` where fractional arithmetic occurs;
64-bit BigInt arithmetic is modelled as `ℕ` with explicit `% 2 ^ 64`.
Module-level mutable state of the source is passed explicitly as state
values, and `Math.random` / `performance.now` are modelled as oracle
streams supplied as parameters.
-/

/-- Player colors (source: types/game.ts `PlayerColor`). -/
inductive PColor where
  | red
  | blue
  | yellow
  | green
deriving DecidableEq, Repr

/-- Piece shapes (source: types/game.ts `PieceType`). -/
inductive PType where
  | circle
  | square
  | triangle
  | diamond
deriving DecidableEq, Repr

/-- A piece: stable id, shape, color (source: types/game.ts `Piece`). -/
structure Piece where
  id : String
  ptype : PType
  color : PColor
deriving DecidableEq, Repr

/-- A board coordinate (source: types/game.ts `Position`). -/
structure Position where
  x : ℤ
  y : ℤ
deriving DecidableEq, Repr

/-- A move descriptor (source: types/game.ts `Move`; the optional
`captured` field is unused by the engine and omitted). -/
structure Move where
  fromPos : Position
  toPos : Position
  piece : Piece
deriving DecidableEq, Repr

/-- The 10×10 board: `board[y][x]` of the source becomes a total function
on `Fin 10 × Fin 10` (JS arrays of fixed size 10). -/
def Board : Type := Fin 10 → Fin 10 → Option Piece

/-- Reading `board[y]?.[x]` (and in-bounds `board[y][x]`): out-of-range
indices give `none` (JS `undefined`). -/
def getCell (board : Board) (x y : ℤ) : Option Piece :=
  if hx : 0 ≤ x ∧ x < 10 then
    if hy : 0 ≤ y ∧ y < 10 then
      board ⟨y.toNat, by omega⟩ ⟨x.toNat, by omega⟩
    else none
  else none

/-- Writing `board[y][x] = v` for in-bounds coordinates (all writes in the
engine are bounds-checked by their callers). -/
def setCell (board : Board) (x y : ℤ) (v : Option Piece) : Board :=
  fun Y X => if (X : ℤ) = x ∧ (Y : ℤ) = y then v else board Y X

/-- Axis of a start/goal line. -/
inductive Axis where
  | x
  | y
deriving DecidableEq, Repr

/-- A direction vector (source: types/game.ts `Direction`). -/
structure Direction where
  dx : ℤ
  dy : ℤ
deriving DecidableEq, Repr

/-- An axis/value pair describing a home or goal row/column. -/
structure LineSpec where
  axis : Axis
  value : ℤ
deriving DecidableEq, Repr

/-- Forward direction per color (source: types/game.ts
`getForwardDirection`). -/
def getForwardDirection : PColor → Direction
  | .red => ⟨0, 1⟩
  | .blue => ⟨0, -1⟩
  | .yellow => ⟨1, 0⟩
  | .green => ⟨-1, 0⟩

/-- Goal row/column per color (source: types/game.ts `getGoalLine`). -/
def getGoalLine : PColor → LineSpec
  | .red => ⟨.y, 9⟩
  | .blue => ⟨.y, 0⟩
  | .yellow => ⟨.x, 9⟩
  | .green => ⟨.x, 0⟩

/-- Starting row/column per color (source: types/game.ts `getStartLine`). -/
def getStartLine : PColor → LineSpec
  | .red => ⟨.y, 0⟩
  | .blue => ⟨.y, 9⟩
  | .yellow => ⟨.x, 0⟩
  | .green => ⟨.x, 9⟩

/-- Jump/leap line-shape selector (source: moveValidation.ts `JumpType`). -/
inductive JumpType where
  | ortho
  | diag
  | any
deriving DecidableEq, Repr

/-- The line-shape test of `validateJump` per `JumpType`. -/
def jumpShapeOk (t : JumpType) (absDx absDy : ℕ) : Prop :=
  match t with
  | .ortho => (absDx = 2 ∧ absDy = 0) ∨ (absDx = 0 ∧ absDy = 2)
  | .diag => absDx = 2 ∧ absDy = 2
  | .any =>
      (absDx = 2 ∧ absDy = 0) ∨ (absDx = 0 ∧ absDy = 2) ∨
        (absDx = 2 ∧ absDy = 2)

instance (t : JumpType) (a b : ℕ) : Decidable (jumpShapeOk t a b) := by
  unfold jumpShapeOk
  cases t <;> infer_instance

/-- The line-shape test of `validateLeap` per `JumpType`. -/
def leapShapeOk (t : JumpType) (absDx absDy : ℕ) : Prop :=
  match t with
  | .ortho => (absDx = 0 ∨ absDy = 0) ∧ ¬(absDx = 0 ∧ absDy = 0)
  | .diag => absDx = absDy ∧ absDx ≠ 0
  | .any => ((absDx = 0 ∨ absDy = 0) ∨ absDx = absDy) ∧
      ¬(absDx = 0 ∧ absDy = 0)

instance (t : JumpType) (a b : ℕ) : Decidable (leapShapeOk t a b) := by
  unfold leapShapeOk
  cases t <;> infer_instance

/-- Distance-2 jump over one occupied midpoint (source: moveValidation.ts
`validateJump`). -/
def validateJump (fromP toP : Position) (board : Board) (t : JumpType) : Bool :=
  let dx := toP.x - fromP.x
  let dy := toP.y - fromP.y
  let absDx := dx.natAbs
  let absDy := dy.natAbs
  if jumpShapeOk t absDx absDy then
    (getCell board (fromP.x + dx / 2) (fromP.y + dy / 2)).isSome
  else false

/-- Triangle jump: note the source hardcodes `forward = color === 'red' ? 1
: -1`, treating every non-red color like blue (source: moveValidation.ts
`validateTriangleJump`). -/
def validateTriangleJump (color : PColor) (fromP toP : Position) (board : Board) :
    Bool :=
  let dx := toP.x - fromP.x
  let dy := toP.y - fromP.y
  let forward : ℤ := if color = .red then 1 else -1
  if dy = 2 * forward ∧ dx.natAbs = 2 then
    validateJump fromP toP board .diag
  else if dy = 2 * -forward ∧ dx = 0 then
    validateJump fromP toP board .ortho
  else false

/-- Square step: orthogonal distance 1 (source: `validateSquare`). -/
def validateSquare (dx dy : ℤ) : Bool :=
  (dx.natAbs = 1 ∧ dy = 0) ∨ (dy.natAbs = 1 ∧ dx = 0)

/-- Diamond step: diagonal distance 1 (source: `validateDiamond`). -/
def validateDiamond (dx dy : ℤ) : Bool :=
  dx.natAbs = 1 ∧ dy.natAbs = 1

/-- Circle step: any of 8 directions, distance 1 (source:
`validateCircle`). -/
def validateCircle (dx dy : ℤ) : Bool :=
  dx.natAbs ≤ 1 ∧ dy.natAbs ≤ 1

/-- Triangle step: diagonally forward or straight backward, using the
color's true forward direction (source: `validateTriangle`). -/
def validateTriangle (color : PColor) (dx dy : ℤ) : Bool :=
  let fwd := getForwardDirection color
  if fwd.dy ≠ 0 then
    (dy = fwd.dy ∧ dx.natAbs = 1) ∨ (dy = -fwd.dy ∧ dx = 0)
  else
    (dx = fwd.dx ∧ dy.natAbs = 1) ∨ (dx = -fwd.dx ∧ dy = 0)

/-- Symmetric long jump over exactly one obstacle with equal empty runs:
path length `2n+1`, obstacle at step `n+1` (source: moveValidation.ts
`validateLeap`). -/
def validateLeap (fromP toP : Position) (board : Board) (t : JumpType) : Bool :=
  let dx := toP.x - fromP.x
  let dy := toP.y - fromP.y
  let absDx := dx.natAbs
  let absDy := dy.natAbs
  if ¬leapShapeOk t absDx absDy then false
  else
    let stepX : ℤ := if dx = 0 then 0 else dx / (absDx : ℤ)
    let stepY : ℤ := if dy = 0 then 0 else dy / (absDy : ℤ)
    let totalSteps := max absDx absDy
    if totalSteps < 3 ∨ totalSteps % 2 = 0 then false
    else
      let n := (totalSteps - 1) / 2
      let obstacleStep := n + 1
      (List.range totalSteps).all fun i =>
        let step := i + 1
        let x := fromP.x + stepX * step
        let y := fromP.y + stepY * step
        if x < 0 ∨ 10 ≤ x ∨ y < 0 ∨ 10 ≤ y then false
        else
          let cell := getCell board x y
          if step = obstacleStep then cell.isSome
          else if step < totalSteps then cell.isNone
          else true

/-- Triangle leap: like the triangle jump this hardcodes `forward = color
=== 'red' ? 1 : -1` (source: moveValidation.ts `validateTriangleLeap`). -/
def validateTriangleLeap (color : PColor) (fromP toP : Position) (board : Board) :
    Bool :=
  let dx := toP.x - fromP.x
  let dy := toP.y - fromP.y
  let forward : ℤ := if color = .red then 1 else -1
  if dy * forward > 0 ∧ dx.natAbs = dy.natAbs then
    validateLeap fromP toP board .diag
  else if dx = 0 ∧ dy * forward < 0 then
    validateLeap fromP toP board .ortho
  else false

/-- Full per-move legality check (source: moveValidation.ts
`isMoveValid`). -/
def isMoveValid (piece : Piece) (fromP toP : Position) (board : Board) : Bool :=
  if fromP.x = toP.x ∧ fromP.y = toP.y then false
  else if toP.x < 0 ∨ 10 ≤ toP.x ∨ toP.y < 0 ∨ 10 ≤ toP.y then false
  else
    let targetCell := getCell board toP.x toP.y
    if targetCell.isSome then false
    else
      let dx := toP.x - fromP.x
      let dy := toP.y - fromP.y
      let startLine := getStartLine piece.color
      let isOnStartLine :=
        if startLine.axis = .y then fromP.y = startLine.value
        else fromP.x = startLine.value
      let fwd := getForwardDirection piece.color
      let isAlongStartLine :=
        (fwd.dy ≠ 0 ∧ dy = 0 ∧ dx.natAbs = 1) ∨
          (fwd.dx ≠ 0 ∧ dx = 0 ∧ dy.natAbs = 1)
      if isOnStartLine ∧ isAlongStartLine ∧ targetCell.isNone then true
      else
        match piece.ptype with
        | .square =>
            validateSquare dx dy || validateJump fromP toP board .ortho ||
              validateLeap fromP toP board .ortho
        | .diamond =>
            validateDiamond dx dy || validateJump fromP toP board .diag ||
              validateLeap fromP toP board .diag
        | .circle =>
            validateCircle dx dy || validateJump fromP toP board .any ||
              validateLeap fromP toP board .any
        | .triangle =>
            validateTriangle piece.color dx dy ||
              validateTriangleJump piece.color fromP toP board ||
              validateTriangleLeap piece.color fromP toP board

/-- Cell scan order of the nested `for (y) for (x)` loops. -/
def boardCoords : List (ℤ × ℤ) :=
  (List.range 10).flatMap fun y => (List.range 10).map fun x => ((x : ℤ), (y : ℤ))

/-- All legal moves of a color: brute-force pieces × empty cells filtered
through the validator (source: ai/moveGenerator.ts `getAllLegalMoves`). -/
def getAllLegalMoves (board : Board) (color : PColor) : List Move :=
  let myPieces : List (Piece × Position) :=
    boardCoords.filterMap fun c =>
      match getCell board c.1 c.2 with
      | some p => if p.color = color then some (p, ⟨c.1, c.2⟩) else none
      | none => none
  let emptyCells : List Position :=
    boardCoords.filterMap fun c =>
      if (getCell board c.1 c.2).isNone then some ⟨c.1, c.2⟩ else none
  myPieces.flatMap fun pp =>
    emptyCells.filterMap fun target =>
      if isMoveValid pp.1 pp.2 target board then
        some ⟨pp.2, target, pp.1⟩
      else none

/-- The all-empty board. -/
def emptyBoard : Board := fun _ _ => none

/-- Obstacle piece used in concrete counterexample boards. -/
def obstaclePiece : Piece := ⟨"obs1", .circle, .blue⟩

/-- A yellow triangle used in concrete counterexample boards. -/
def yellowTrianglePiece : Piece := ⟨"yellow-triangle-1", .triangle, .yellow⟩

/-- Board with a yellow triangle at (4,4) and obstacles at (5,5) and
(3,3). -/
def triangleJumpBoard : Board :=
  setCell (setCell (setCell emptyBoard 4 4 (some yellowTrianglePiece))
    5 5 (some obstaclePiece)) 3 3 (some obstaclePiece)

/-- C1 failing input: the yellow triangle's step rule allows the unit
diagonal-forward direction (1,1) and forbids the unit diagonal-backward
direction (-1,-1); yet `isMoveValid` rejects the distance-2 jump from
(4,4) to (6,6) along the allowed direction (occupied midpoint (5,5),
empty destination) and accepts the jump from (4,4) to (2,2) along the
forbidden direction (occupied midpoint (3,3)).  The jump/leap code
hardcodes `forward = color === 'red' ? 1 : -1`, treating yellow and green
like blue. -/
theorem C1_triangle_jump_ignores_horizontal_forward :
    validateTriangle .yellow 1 1 = true ∧
    validateTriangle .yellow (-1) (-1) = false ∧
    isMoveValid yellowTrianglePiece ⟨4, 4⟩ ⟨6, 6⟩ triangleJumpBoard = false ∧
    isMoveValid yellowTrianglePiece ⟨4, 4⟩ ⟨2, 2⟩ triangleJumpBoard = true := by
  decide

/-- C6: while a piece stands on its color's starting line, a distance-1
move along that line (perpendicular to the color's forward direction) to
an empty in-bounds cell is accepted by `isMoveValid` whatever the piece's
type. -/
theorem C6_startline_sideways_always_valid (piece : Piece) (fromP toP : Position)
    (board : Board)
    (hOn : (if (getStartLine piece.color).axis = Axis.y then fromP.y else fromP.x) =
      (getStartLine piece.color).value)
    (hPerp :
      ((getStartLine piece.color).axis = Axis.y ∧ toP.y = fromP.y ∧
        (toP.x = fromP.x + 1 ∨ toP.x = fromP.x - 1)) ∨
      ((getStartLine piece.color).axis = Axis.x ∧ toP.x = fromP.x ∧
        (toP.y = fromP.y + 1 ∨ toP.y = fromP.y - 1)))
    (hbx : 0 ≤ toP.x ∧ toP.x < 10) (hby : 0 ≤ toP.y ∧ toP.y < 10)
    (hEmpty : getCell board toP.x toP.y = none) :
    isMoveValid piece fromP toP board = true := by
  obtain ⟨pid, pty, pc⟩ := piece
  cases pc <;>
    simp only [getStartLine] at hOn hPerp <;>
    [skip; skip; skip; skip] <;>
    · first
      | (rcases hPerp with ⟨-, hy, hx⟩ | ⟨hax, -, -⟩
         · simp only [isMoveValid, getStartLine, getForwardDirection, hEmpty]
           rw [if_neg (by omega), if_neg (by omega)]
           simp only [Option.isSome_none, Bool.false_eq_true, if_false]
           rw [if_pos]
           refine ⟨by simpa using hOn, Or.inl ⟨by simp, by omega, by omega⟩, rfl⟩
         · simp at hax)
      | (rcases hPerp with ⟨hax, -, -⟩ | ⟨-, hx, hy⟩
         · simp at hax
         · simp only [isMoveValid, getStartLine, getForwardDirection, hEmpty]
           rw [if_neg (by omega), if_neg (by omega)]
           simp only [Option.isSome_none, Bool.false_eq_true, if_false]
           rw [if_pos]
           refine ⟨by simpa using hOn, Or.inr ⟨by simp, by omega, by omega⟩, rfl⟩)


/-- The distance-2 line shapes on which each piece attempts a jump, as
dispatched by `isMoveValid` (square → orthogonal, diamond → diagonal,
circle → both, triangle → the source's hardcoded direction guard). -/
def jumpShapeAllowed (ty : PType) (color : PColor) (dx dy : ℤ) : Bool :=
  match ty with
  | .square => (dx.natAbs = 2 ∧ dy = 0) ∨ (dy.natAbs = 2 ∧ dx = 0)
  | .diamond => dx.natAbs = 2 ∧ dy.natAbs = 2
  | .circle =>
      (dx.natAbs = 2 ∧ dy = 0) ∨ (dy.natAbs = 2 ∧ dx = 0) ∨
        (dx.natAbs = 2 ∧ dy.natAbs = 2)
  | .triangle =>
      let forward : ℤ := if color = .red then 1 else -1
      (dy = 2 * forward ∧ dx.natAbs = 2) ∨ (dy = 2 * -forward ∧ dx = 0)

/-- A leap needs path length at least 3, so short displacements never
leap. -/
lemma validateLeap_eq_false_of_small (fromP toP : Position) (board : Board)
    (t : JumpType)
    (h : (toP.x - fromP.x).natAbs < 3 ∧ (toP.y - fromP.y).natAbs < 3) :
    validateLeap fromP toP board t = false := by
  simp only [validateLeap]
  rcases Decidable.em (leapShapeOk t (toP.x - fromP.x).natAbs
    (toP.y - fromP.y).natAbs) with h1 | h1
  · rw [if_neg (not_not_intro h1), if_pos (Or.inl (Nat.max_lt.mpr ⟨h.1, h.2⟩))]
  · rw [if_pos h1]

set_option maxHeartbeats 2000000 in
/-- C5: for any displacement of exact distance 2 along an orthogonal or
diagonal line between in-bounds cells, `isMoveValid` accepts the move as a
jump exactly when the line shape is one the piece may jump on, the single
midpoint cell is occupied (by a piece of either color) and the destination
cell is empty. -/
theorem C5_jump_characterization (piece : Piece) (fromP toP : Position)
    (board : Board) (dx dy : ℤ)
    (hdx : dx = toP.x - fromP.x) (hdy : dy = toP.y - fromP.y)
    (hfx : 0 ≤ fromP.x ∧ fromP.x < 10) (hfy : 0 ≤ fromP.y ∧ fromP.y < 10)
    (htx : 0 ≤ toP.x ∧ toP.x < 10) (hty : 0 ≤ toP.y ∧ toP.y < 10)
    (hdist : (dx.natAbs = 2 ∧ dy = 0) ∨ (dy.natAbs = 2 ∧ dx = 0) ∨
      (dx.natAbs = 2 ∧ dy.natAbs = 2)) :
    isMoveValid piece fromP toP board = true ↔
      (jumpShapeAllowed piece.ptype piece.color dx dy = true ∧
        (getCell board (fromP.x + dx / 2) (fromP.y + dy / 2)).isSome = true ∧
        getCell board toP.x toP.y = none) := by
  obtain ⟨pid, pty, pc⟩ := piece
  subst hdx hdy
  have hleap : ∀ t, validateLeap fromP toP board t = false := fun t =>
    validateLeap_eq_false_of_small fromP toP board t (by omega)
  have hcase : (toP.x - fromP.x = 2 ∨ toP.x - fromP.x = -2 ∨ toP.x - fromP.x = 0) ∧
      (toP.y - fromP.y = 2 ∨ toP.y - fromP.y = -2 ∨ toP.y - fromP.y = 0) ∧
      ¬(toP.x - fromP.x = 0 ∧ toP.y - fromP.y = 0) := by omega
  cases pty <;>
    simp only [isMoveValid, jumpShapeAllowed, validateSquare, validateDiamond,
      validateCircle, validateTriangle, validateTriangleJump,
      validateTriangleLeap, validateJump, hleap, getForwardDirection,
      Bool.or_false] <;>
    rw [if_neg (by omega), if_neg (by omega)] <;>
    generalize getCell board (fromP.x + (toP.x - fromP.x) / 2)
      (fromP.y + (toP.y - fromP.y) / 2) = midCell <;>
    generalize getCell board toP.x toP.y = destCell <;>
    obtain ⟨hx | hx | hx, hy | hy | hy, hnz⟩ := hcase <;>
    cases destCell <;> cases midCell <;>
    first
    | omega
    | (rw [hx, hy]
       first
       | (simp_all [jumpShapeOk]
          done)
       | (simp_all [jumpShapeOk] <;> omega)
       | (cases pc <;> simp_all [jumpShapeOk] <;> omega)
       | (cases pc <;> simp_all [jumpShapeOk]
          done))
    | skip

/-- The `step = direction / |direction|` (with 0 for a zero direction)
computation of `validateLeap` equals the integer sign. -/
lemma div_natAbs_eq_sign (d : ℤ) :
    (if d = 0 then 0 else d / (d.natAbs : ℤ)) = d.sign := by
  rcases lt_trichotomy d 0 with h | h | h
  · rw [if_neg (by omega), Int.sign_eq_neg_one_of_neg h]
    have h1 : (d.natAbs : ℤ) = -d := by omega
    rw [h1]
    have := Int.mul_ediv_cancel (-1) (show -d ≠ 0 by omega)
    simpa using this
  · simp [h]
  · rw [if_neg (by omega), Int.sign_eq_one_of_pos h,
      Int.natAbs_of_nonneg (by omega)]
    exact Int.ediv_self (by omega)

/-- Cells along the straight path between two in-bounds cells stay in
bounds. -/
lemma path_coord_bounds (a b : ℤ) (ha : 0 ≤ a ∧ a < 10) (hb : 0 ≤ b ∧ b < 10)
    (L k : ℕ) (habs : (b - a).natAbs = L ∨ b - a = 0) (hk : k ≤ L) :
    0 ≤ a + (b - a).sign * (k : ℤ) ∧ a + (b - a).sign * (k : ℤ) < 10 := by
  rcases lt_trichotomy (b - a) 0 with hs | hs | hs
  · rw [Int.sign_eq_neg_one_of_neg hs]
    omega
  · rw [hs, Int.sign_zero]
    omega
  · rw [Int.sign_eq_one_of_pos hs]
    omega

/-- Characterization of `validateLeap` on a straight line of length at
least 3 whose shape passes the given `JumpType` filter: valid exactly when
the length is odd, the cell `(L+1)/2` steps from the origin holds a piece
and every other strict intermediate cell is empty. -/
lemma validateLeap_iff (fromP toP : Position) (board : Board) (t : JumpType)
    (hfx : 0 ≤ fromP.x ∧ fromP.x < 10) (hfy : 0 ≤ fromP.y ∧ fromP.y < 10)
    (htx : 0 ≤ toP.x ∧ toP.x < 10) (hty : 0 ≤ toP.y ∧ toP.y < 10)
    (L : ℕ) (hL : L = max (toP.x - fromP.x).natAbs (toP.y - fromP.y).natAbs)
    (hline : toP.x - fromP.x = 0 ∨ toP.y - fromP.y = 0 ∨
      (toP.x - fromP.x).natAbs = (toP.y - fromP.y).natAbs)
    (h3 : 3 ≤ L)
    (hshape : leapShapeOk t (toP.x - fromP.x).natAbs (toP.y - fromP.y).natAbs) :
    validateLeap fromP toP board t = true ↔
      (L % 2 = 1 ∧
        (getCell board (fromP.x + (toP.x - fromP.x).sign * (((L + 1) / 2 : ℕ) : ℤ))
          (fromP.y + (toP.y - fromP.y).sign * (((L + 1) / 2 : ℕ) : ℤ))).isSome = true ∧
        ∀ k : ℕ, 1 ≤ k → k < L → k ≠ (L + 1) / 2 →
          getCell board (fromP.x + (toP.x - fromP.x).sign * (k : ℤ))
            (fromP.y + (toP.y - fromP.y).sign * (k : ℤ)) = none) := by
  have hmaxc : ((toP.x - fromP.x).natAbs = L ∨ toP.x - fromP.x = 0) ∧
      ((toP.y - fromP.y).natAbs = L ∨ toP.y - fromP.y = 0) := by
    rcases Nat.le_total (toP.x - fromP.x).natAbs (toP.y - fromP.y).natAbs with
      hmx | hmx
    · rw [Nat.max_eq_right hmx] at hL
      rcases hline with h | h | h <;> omega
    · rw [Nat.max_eq_left hmx] at hL
      rcases hline with h | h | h <;> omega
  have hbx : ∀ k : ℕ, k ≤ L →
      0 ≤ fromP.x + (toP.x - fromP.x).sign * (k : ℤ) ∧
        fromP.x + (toP.x - fromP.x).sign * (k : ℤ) < 10 := fun k hk =>
    path_coord_bounds fromP.x toP.x hfx htx L k hmaxc.1 hk
  have hby : ∀ k : ℕ, k ≤ L →
      0 ≤ fromP.y + (toP.y - fromP.y).sign * (k : ℤ) ∧
        fromP.y + (toP.y - fromP.y).sign * (k : ℤ) < 10 := fun k hk =>
    path_coord_bounds fromP.y toP.y hfy hty L k hmaxc.2 hk
  simp only [validateLeap]
  rw [if_neg (not_not_intro hshape), ← hL]
  rcases Nat.even_or_odd L with hev | hod
  · have he : L % 2 = 0 := Nat.even_iff.mp hev
    rw [if_pos (Or.inr he)]
    simp [he]
  · have ho : L % 2 = 1 := Nat.odd_iff.mp hod
    rw [if_neg (by omega)]
    have hob : (L - 1) / 2 + 1 = (L + 1) / 2 := by omega
    simp only [div_natAbs_eq_sign, hob, List.all_eq_true, List.mem_range]
    constructor
    · intro hall
      refine ⟨ho, ?_, ?_⟩
      · have hmem : (L + 1) / 2 - 1 < L := by omega
        have hstep : ((L + 1) / 2 - 1) + 1 = (L + 1) / 2 := by omega
        have := hall ((L + 1) / 2 - 1) hmem
        rw [hstep] at this
        rw [if_neg (by
          have h1 := hbx ((L + 1) / 2) (by omega)
          have h2 := hby ((L + 1) / 2) (by omega)
          push_neg
          exact ⟨h1.1, by omega, h2.1, by omega⟩), if_pos rfl] at this
        exact this
      · intro k hk1 hkL hkob
        have hmem : k - 1 < L := by omega
        have hstep : (k - 1) + 1 = k := by omega
        have := hall (k - 1) hmem
        rw [hstep] at this
        rw [if_neg (by
          have h1 := hbx k (by omega)
          have h2 := hby k (by omega)
          push_neg
          exact ⟨h1.1, by omega, h2.1, by omega⟩), if_neg hkob,
          if_pos hkL] at this
        exact Option.isNone_iff_eq_none.mp this
    · rintro ⟨-, hobs, hemp⟩ i hi
      rw [if_neg (by
        have h1 := hbx (i + 1) (by omega)
        have h2 := hby (i + 1) (by omega)
        push_neg
        exact ⟨h1.1, by omega, h2.1, by omega⟩)]
      by_cases hio : i + 1 = (L + 1) / 2
      · rw [if_pos hio, hio]
        exact hobs
      · rw [if_neg hio]
        by_cases hil : i + 1 < L
        · rw [if_pos hil]
          have := hemp (i + 1) (by omega) hil hio
          push_cast at this ⊢
          simp [this]
        · rw [if_neg hil]

/-- A jump needs exact distance 2, so long displacements never jump. -/
lemma validateJump_eq_false_of_far (fromP toP : Position) (board : Board)
    (t : JumpType)
    (h : 3 ≤ (toP.x - fromP.x).natAbs ∨ 3 ≤ (toP.y - fromP.y).natAbs) :
    validateJump fromP toP board t = false := by
  simp only [validateJump]
  rw [if_neg]
  intro hsh
  cases t <;> simp only [jumpShapeOk] at hsh <;> omega

/-- A triangle jump needs exact distance 2, so long displacements never
triangle-jump. -/
lemma validateTriangleJump_eq_false_of_far (c : PColor) (fromP toP : Position)
    (board : Board)
    (h : 3 ≤ (toP.x - fromP.x).natAbs ∨ 3 ≤ (toP.y - fromP.y).natAbs) :
    validateTriangleJump c fromP toP board = false := by
  simp only [validateTriangleJump]
  by_cases hc : c = PColor.red <;>
    simp only [hc, if_true, if_false, reduceIte] <;>
    rw [if_neg (by omega), if_neg (by omega)]

/-- A leap of even total length is always rejected. -/
lemma validateLeap_eq_false_of_even (fromP toP : Position) (board : Board)
    (t : JumpType)
    (h : (max (toP.x - fromP.x).natAbs (toP.y - fromP.y).natAbs) % 2 = 0) :
    validateLeap fromP toP board t = false := by
  simp only [validateLeap]
  rcases Decidable.em (leapShapeOk t (toP.x - fromP.x).natAbs
    (toP.y - fromP.y).natAbs) with h1 | h1
  · rw [if_neg (not_not_intro h1), if_pos (Or.inr h)]
  · rw [if_pos h1]

/-- The straight-line shapes on which each piece attempts a leap, as
dispatched by `isMoveValid` (square → orthogonal, diamond → diagonal,
circle → both, triangle → the source's hardcoded direction guard). -/
def leapShapeAllowed (ty : PType) (color : PColor) (dx dy : ℤ) : Bool :=
  match ty with
  | .square => leapShapeOk .ortho dx.natAbs dy.natAbs
  | .diamond => leapShapeOk .diag dx.natAbs dy.natAbs
  | .circle => leapShapeOk .any dx.natAbs dy.natAbs
  | .triangle =>
      let forward : ℤ := if color = .red then 1 else -1
      (dy * forward > 0 ∧ dx.natAbs = dy.natAbs) ∨ (dx = 0 ∧ dy * forward < 0)

set_option maxHeartbeats 2000000 in
/-- C4: for every piece and straight-line displacement of length `L ≥ 3`
between in-bounds cells: when the line shape is one the piece may leap on,
`isMoveValid` accepts the move exactly when `L` is odd, the single cell
`(L+1)/2` steps from the origin is occupied, every other strictly
intermediate path cell is empty and the destination is empty; and every
straight-line move of even length is rejected for every piece type. -/
theorem C4_leap_characterization (piece : Piece) (fromP toP : Position)
    (board : Board) (dx dy : ℤ) (L : ℕ)
    (hdx : dx = toP.x - fromP.x) (hdy : dy = toP.y - fromP.y)
    (hL : L = max dx.natAbs dy.natAbs)
    (hfx : 0 ≤ fromP.x ∧ fromP.x < 10) (hfy : 0 ≤ fromP.y ∧ fromP.y < 10)
    (htx : 0 ≤ toP.x ∧ toP.x < 10) (hty : 0 ≤ toP.y ∧ toP.y < 10)
    (hline : dx = 0 ∨ dy = 0 ∨ dx.natAbs = dy.natAbs)
    (h3 : 3 ≤ L) :
    (leapShapeAllowed piece.ptype piece.color dx dy = true →
      (isMoveValid piece fromP toP board = true ↔
        (L % 2 = 1 ∧
          (getCell board (fromP.x + dx.sign * (((L + 1) / 2 : ℕ) : ℤ))
            (fromP.y + dy.sign * (((L + 1) / 2 : ℕ) : ℤ))).isSome = true ∧
          (∀ k : ℕ, 1 ≤ k → k < L → k ≠ (L + 1) / 2 →
            getCell board (fromP.x + dx.sign * (k : ℤ))
              (fromP.y + dy.sign * (k : ℤ)) = none) ∧
          getCell board toP.x toP.y = none))) ∧
    (L % 2 = 0 → isMoveValid piece fromP toP board = false) := by
  obtain ⟨pid, pty, pc⟩ := piece
  subst hdx hdy
  have hmaxc : ((toP.x - fromP.x).natAbs = L ∨ toP.x - fromP.x = 0) ∧
      ((toP.y - fromP.y).natAbs = L ∨ toP.y - fromP.y = 0) := by
    rcases Nat.le_total (toP.x - fromP.x).natAbs (toP.y - fromP.y).natAbs with
      hmx | hmx
    · rw [Nat.max_eq_right hmx] at hL
      rcases hline with h | h | h <;> omega
    · rw [Nat.max_eq_left hmx] at hL
      rcases hline with h | h | h <;> omega
  have hjump : ∀ t, validateJump fromP toP board t = false := fun t =>
    validateJump_eq_false_of_far fromP toP board t (by omega)
  have htjump : validateTriangleJump pc fromP toP board = false :=
    validateTriangleJump_eq_false_of_far pc fromP toP board (by omega)
  have hsq : validateSquare (toP.x - fromP.x) (toP.y - fromP.y) = false := by
    simp only [validateSquare, decide_eq_false_iff_not]
    omega
  have hdi : validateDiamond (toP.x - fromP.x) (toP.y - fromP.y) = false := by
    simp only [validateDiamond, decide_eq_false_iff_not]
    omega
  have hci : validateCircle (toP.x - fromP.x) (toP.y - fromP.y) = false := by
    simp only [validateCircle, decide_eq_false_iff_not]
    omega
  have htr : validateTriangle pc (toP.x - fromP.x) (toP.y - fromP.y) = false := by
    simp only [validateTriangle, decide_eq_false_iff_not, getForwardDirection]
    cases pc <;> simp <;> omega
  have hAlong : ¬ (((getForwardDirection pc).dy ≠ 0 ∧ toP.y - fromP.y = 0 ∧
      (toP.x - fromP.x).natAbs = 1) ∨ ((getForwardDirection pc).dx ≠ 0 ∧
      toP.x - fromP.x = 0 ∧ (toP.y - fromP.y).natAbs = 1)) := by
    rintro (⟨-, h1, h2⟩ | ⟨-, h1, h2⟩) <;> omega
  simp only [isMoveValid]
  rw [if_neg (by omega), if_neg (by omega)]
  rcases hdest : getCell board toP.x toP.y with _ | dp
  · -- destination empty
    simp only [Option.isSome_none, Bool.false_eq_true, if_false,
      Option.isNone_none]
    rw [if_neg (by rintro ⟨-, h, -⟩; exact hAlong h)]
    constructor
    · -- shape-allowed part
      intro hshape
      cases pty <;>
        simp only [leapShapeAllowed, decide_eq_true_eq] at hshape <;>
        simp only [hsq, hdi, hci, htr, hjump, htjump, Bool.false_or]
      · rw [validateLeap_iff fromP toP board .any hfx hfy htx hty L hL
          hline h3 hshape]
        simp only [and_true]
      · rw [validateLeap_iff fromP toP board .ortho hfx hfy htx hty L hL
          hline h3 hshape]
        simp only [and_true]
      · -- triangle: hshape is the source's direction guard
        simp only [validateTriangleLeap]
        have hfwd : (if pc = PColor.red then (1 : ℤ) else -1) = 1 ∨
            (if pc = PColor.red then (1 : ℤ) else -1) = -1 := by
          by_cases hc : pc = PColor.red <;> simp [hc]
        rcases hshape with hg1 | hg2
        · rw [if_pos hg1]
          rw [validateLeap_iff fromP toP board .diag hfx hfy htx hty L hL
            hline h3 (by
              constructor
              · omega
              · rcases hfwd with hf | hf <;> rw [hf] at hg1 <;> omega)]
          simp only [and_true]
        · rw [if_neg (by
            rintro ⟨hgt, -⟩
            rcases hfwd with hf | hf <;> rw [hf] at hgt hg2 <;> omega),
            if_pos hg2]
          rw [validateLeap_iff fromP toP board .ortho hfx hfy htx hty L hL
            hline h3 (by
              constructor
              · omega
              · rcases hfwd with hf | hf <;> rw [hf] at hg2 <;> omega)]
          simp only [and_true]
      · rw [validateLeap_iff fromP toP board .diag hfx hfy htx hty L hL
          hline h3 hshape]
        simp only [and_true]
    · -- even-length part
      intro hev
      have hleapev : ∀ t, validateLeap fromP toP board t = false := fun t =>
        validateLeap_eq_false_of_even fromP toP board t (by rw [← hL]; exact hev)
      cases pty <;>
        simp only [hsq, hdi, hci, htr, hjump, htjump, hleapev, Bool.false_or,
          Bool.or_false, validateTriangleLeap, ite_self]
  · -- destination occupied: always invalid
    simp only [Option.isSome_some, if_true, reduceIte]
    constructor
    · intro _
      constructor
      · intro h
        exact absurd h (by simp)
      · rintro ⟨-, -, -, h⟩
        exact absurd h (by simp)
    · intro _
      trivial

/-- Pure copy-on-write move application: reads the origin from the input
board, writes the piece to the destination and clears the origin (source:
ai/minimax.ts `simulateMove`). -/
def simulateMove (board : Board) (move : Move) : Board :=
  match getCell board move.fromPos.x move.fromPos.y with
  | some p =>
      setCell (setCell board move.toPos.x move.toPos.y (some p))
        move.fromPos.x move.fromPos.y none
  | none => board

/-- Reading back the freshly written cell. -/
lemma getCell_setCell_same (b : Board) (x y : ℤ) (v : Option Piece)
    (hx : 0 ≤ x ∧ x < 10) (hy : 0 ≤ y ∧ y < 10) :
    getCell (setCell b x y v) x y = v := by
  unfold getCell setCell
  rw [dif_pos hx, dif_pos hy]
  rw [if_pos]
  constructor <;> simp [Int.toNat_of_nonneg hx.1, Int.toNat_of_nonneg hy.1]

/-- Reading any other cell is unaffected by a write. -/
lemma getCell_setCell_ne (b : Board) (x y x2 y2 : ℤ) (v : Option Piece)
    (h : ¬(x2 = x ∧ y2 = y)) :
    getCell (setCell b x y v) x2 y2 = getCell b x2 y2 := by
  unfold getCell setCell
  by_cases h2x : 0 ≤ x2 ∧ x2 < 10
  · by_cases h2y : 0 ≤ y2 ∧ y2 < 10
    · rw [dif_pos h2x, dif_pos h2y, dif_pos h2x, dif_pos h2y]
      rw [if_neg]
      simp only [Int.toNat_of_nonneg h2x.1, Int.toNat_of_nonneg h2y.1]
      omega
    · rw [dif_pos h2x, dif_neg h2y, dif_pos h2x, dif_neg h2y]
  · rw [dif_neg h2x, dif_neg h2x]

/-- A red square used in concrete boards. -/
def redSquarePiece : Piece := ⟨"red-square-1", .square, .red⟩

/-- Board holding only a red square at (0,0). -/
def squareAtOriginBoard : Board := setCell emptyBoard 0 0 (some redSquarePiece)

/-- The degenerate move from (0,0) to (0,0). -/
def sameCellMove : Move := ⟨⟨0, 0⟩, ⟨0, 0⟩, redSquarePiece⟩

/-- C7 counterexample: on a move whose origin equals its destination and
whose origin is occupied, `simulateMove` leaves the cell empty, so the
returned board does not hold the moved piece at the destination. -/
theorem C7_counterexample_same_cell_move :
    getCell squareAtOriginBoard sameCellMove.fromPos.x sameCellMove.fromPos.y =
      some redSquarePiece ∧
    ¬(getCell (simulateMove squareAtOriginBoard sameCellMove)
        sameCellMove.toPos.x sameCellMove.toPos.y =
      getCell squareAtOriginBoard sameCellMove.fromPos.x sameCellMove.fromPos.y) := by
  decide

/-- C7 (amended): for every board and every move with distinct in-bounds
origin and destination, `simulateMove` returns a board whose origin cell
is empty, whose destination holds the piece that occupied the origin and
whose every other cell equals the input board; when the origin is empty
the input board is returned unchanged.  The input board value is never
modified (the embedding is pure by construction). -/
theorem C7_simulateMove_frame (board : Board) (move : Move)
    (hne : ¬(move.toPos.x = move.fromPos.x ∧ move.toPos.y = move.fromPos.y))
    (hfx : 0 ≤ move.fromPos.x ∧ move.fromPos.x < 10)
    (hfy : 0 ≤ move.fromPos.y ∧ move.fromPos.y < 10)
    (htx : 0 ≤ move.toPos.x ∧ move.toPos.x < 10)
    (hty : 0 ≤ move.toPos.y ∧ move.toPos.y < 10) :
    (∀ p, getCell board move.fromPos.x move.fromPos.y = some p →
      getCell (simulateMove board move) move.fromPos.x move.fromPos.y = none ∧
      getCell (simulateMove board move) move.toPos.x move.toPos.y = some p ∧
      ∀ x y : ℤ, ¬(x = move.fromPos.x ∧ y = move.fromPos.y) →
        ¬(x = move.toPos.x ∧ y = move.toPos.y) →
        getCell (simulateMove board move) x y = getCell board x y) ∧
    (getCell board move.fromPos.x move.fromPos.y = none →
      simulateMove board move = board) := by
  constructor
  · intro p hp
    simp only [simulateMove, hp]
    refine ⟨?_, ?_, ?_⟩
    · exact getCell_setCell_same _ _ _ _ hfx hfy
    · rw [getCell_setCell_ne _ _ _ _ _ _ hne]
      exact getCell_setCell_same _ _ _ _ htx hty
    · intro x y hxf hxt
      rw [getCell_setCell_ne _ _ _ _ _ _ hxf, getCell_setCell_ne _ _ _ _ _ _ hxt]
  · intro hp
    simp only [simulateMove, hp]

/-- One step of the 64-bit linear congruential generator seeding the
Zobrist tables (source: transpositionTable.ts `nextRandom`). -/
def lcgNext (s : ℕ) : ℕ := (s * 6364136223846793005 + 1442695040888963407) % 2 ^ 64

/-- Initial LCG seed (source: transpositionTable.ts `seed`). -/
def lcgSeed : ℕ := 12345678901234567890

/-- The k-th value returned by `nextRandom` (0-indexed). -/
def lcgVal : ℕ → ℕ
  | 0 => lcgNext lcgSeed
  | n + 1 => lcgNext (lcgVal n)

/-- Index of a piece type in the `PIECE_TYPES` array. -/
def ptIndex : PType → ℕ
  | .circle => 0
  | .square => 1
  | .triangle => 2
  | .diamond => 3

/-- Index of a color in the `COLORS` array. -/
def cIndex : PColor → ℕ
  | .red => 0
  | .blue => 1
  | .yellow => 2
  | .green => 3

/-- Zobrist random value per (cell, piece type, color), generated in the
y, x, type, color loop order of `initZobrist`. -/
def zobristTable (y x : ℕ) (pt : PType) (c : PColor) : ℕ :=
  lcgVal (((y * 10 + x) * 4 + ptIndex pt) * 4 + cIndex c)

/-- Zobrist random value per color to move (generated after the 1600 table
values). -/
def zobristPlayer (c : PColor) : ℕ := lcgVal (1600 + cIndex c)

/-- Zobrist hash of a board and the color to move: XOR of the per-cell
values of all occupied cells and the player value (source:
transpositionTable.ts `computeHash`). -/
def computeHash (board : Board) (currentPlayer : PColor) : ℕ :=
  let cellHash :=
    boardCoords.foldl (fun h c =>
      match getCell board c.1 c.2 with
      | some p => Nat.xor h (zobristTable c.2.toNat c.1.toNat p.ptype p.color)
      | none => h) 0
  Nat.xor cellHash (zobristPlayer currentPlayer)

/-- Boards with the same cell contents are the same function. -/
lemma board_ext (b1 b2 : Board)
    (h : ∀ x y : ℤ, getCell b1 x y = getCell b2 x y) : b1 = b2 := by
  funext Y X
  have hx : 0 ≤ (X : ℤ) ∧ (X : ℤ) < 10 := ⟨Int.natCast_nonneg _, by
    exact_mod_cast X.isLt⟩
  have hy : 0 ≤ (Y : ℤ) ∧ (Y : ℤ) < 10 := ⟨Int.natCast_nonneg _, by
    exact_mod_cast Y.isLt⟩
  have := h (X : ℤ) (Y : ℤ)
  unfold getCell at this
  rw [dif_pos hx, dif_pos hy, dif_pos hx, dif_pos hy] at this
  simpa using this

/-- C8: `computeHash` depends only on the board contents and the color to
move, and moving a piece (occupied origin, empty destination) and moving
it back restores the hash of the original position. -/
theorem C8_computeHash_move_inverse :
    (∀ (b1 b2 : Board) (p : PColor),
      (∀ x y : ℤ, getCell b1 x y = getCell b2 x y) →
      computeHash b1 p = computeHash b2 p) ∧
    (∀ (board : Board) (m : Move) (p : PColor) (pc : Piece),
      (0 ≤ m.fromPos.x ∧ m.fromPos.x < 10) → (0 ≤ m.fromPos.y ∧ m.fromPos.y < 10) →
      (0 ≤ m.toPos.x ∧ m.toPos.x < 10) → (0 ≤ m.toPos.y ∧ m.toPos.y < 10) →
      getCell board m.fromPos.x m.fromPos.y = some pc →
      getCell board m.toPos.x m.toPos.y = none →
      computeHash
        (simulateMove (simulateMove board m) ⟨m.toPos, m.fromPos, m.piece⟩) p =
        computeHash board p) := by
  have hpure : ∀ (b1 b2 : Board) (p : PColor),
      (∀ x y : ℤ, getCell b1 x y = getCell b2 x y) →
      computeHash b1 p = computeHash b2 p := fun b1 b2 p h => by
    rw [board_ext b1 b2 h]
  refine ⟨hpure, ?_⟩
  intro board m p pc hfx hfy htx hty hp hdest
  have hne : ¬(m.toPos.x = m.fromPos.x ∧ m.toPos.y = m.fromPos.y) := by
    rintro ⟨h1, h2⟩
    rw [h1, h2, hp] at hdest
    exact absurd hdest (by simp)
  have hne2 : ¬(m.fromPos.x = m.toPos.x ∧ m.fromPos.y = m.toPos.y) := by
    rintro ⟨h1, h2⟩
    exact hne ⟨h1.symm, h2.symm⟩
  apply hpure
  intro x y
  simp only [simulateMove, hp]
  have hb1to : getCell (setCell (setCell board m.toPos.x m.toPos.y (some pc))
      m.fromPos.x m.fromPos.y none) m.toPos.x m.toPos.y = some pc := by
    rw [getCell_setCell_ne _ _ _ _ _ _ hne]
    exact getCell_setCell_same _ _ _ _ htx hty
  simp only [hb1to]
  by_cases hxt : x = m.toPos.x ∧ y = m.toPos.y
  · rw [hxt.1, hxt.2]
    rw [getCell_setCell_same _ _ _ _ htx hty, hdest]
  · rw [getCell_setCell_ne _ _ _ _ _ _ hxt]
    by_cases hxf : x = m.fromPos.x ∧ y = m.fromPos.y
    · rw [hxf.1, hxf.2]
      rw [getCell_setCell_same _ _ _ _ hfx hfy, hp]
    · rw [getCell_setCell_ne _ _ _ _ _ _ hxf,
        getCell_setCell_ne _ _ _ _ _ _ hxf,
        getCell_setCell_ne _ _ _ _ _ _ hxt]

/-- Bound flag of a transposition-table entry. -/
inductive TTFlag where
  | exact
  | lower
  | upper
deriving DecidableEq, Repr

/-- A transposition-table entry (source: ai/types.ts `TTEntry`). -/
structure TTEntry where
  hash : ℕ
  depth : ℕ
  score : ℚ
  flag : TTFlag
  bestMove : Option Move
deriving DecidableEq, Repr

/-- The JS `Map` keyed by the hash's decimal string: an insertion-ordered
association list; `set` on an existing key updates it in place. -/
abbrev TTable : Type := List (ℕ × TTEntry)

/-- `Map.get`: the first (unique) binding of a key. -/
def mapGet (t : TTable) (k : ℕ) : Option TTEntry :=
  (t.find? fun p => p.1 = k).map Prod.snd

/-- `Map.set`: update an existing binding in place, else append. -/
def mapSet (t : TTable) (k : ℕ) (v : TTEntry) : TTable :=
  if t.any fun p => p.1 = k then
    t.map fun p => if p.1 = k then (k, v) else p
  else t ++ [(k, v)]

/-- Table size cap (source: transpositionTable.ts `TT_SIZE`, `1 << 18`). -/
def TT_SIZE : ℕ := 2 ^ 18

/-- Depth-preferred store: replace when the new depth is at least the
stored depth, then evict the oldest quarter in bulk when the size cap is
exceeded (source: transpositionTable.ts `ttStore`). -/
def ttStore (t : TTable) (hash depth : ℕ) (score : ℚ) (flag : TTFlag)
    (bestMove : Option Move) : TTable :=
  let t1 :=
    match mapGet t hash with
    | none => mapSet t hash ⟨hash, depth, score, flag, bestMove⟩
    | some existing =>
        if existing.depth ≤ depth then
          mapSet t hash ⟨hash, depth, score, flag, bestMove⟩
        else t
  if TT_SIZE < t1.length then t1.drop ((t1.length + 3) / 4) else t1

/-- Depth-aware lookup: an entry is returned only when its stored depth is
at least the requested depth (source: transpositionTable.ts `ttLookup`). -/
def ttLookup (t : TTable) (hash depth : ℕ) : Option TTEntry :=
  match mapGet t hash with
  | some entry => if depth ≤ entry.depth then some entry else none
  | none => none

/-- A present key makes `List.any` true. -/
lemma any_key_of_mapGet_some (t : TTable) (k : ℕ) (e : TTEntry)
    (h : mapGet t k = some e) : (t.any fun p => p.1 = k) = true := by
  simp only [mapGet, Option.map_eq_some'] at h
  obtain ⟨⟨k2, e2⟩, hfind, -⟩ := h
  have hmem := List.mem_of_find?_eq_some hfind
  have hpred := List.find?_some hfind
  exact List.any_eq_true.mpr ⟨_, hmem, hpred⟩

/-- Updating a present key yields the new binding. -/
lemma mapGet_mapSet_self (t : TTable) (k : ℕ) (v : TTEntry)
    (h : (t.any fun p => p.1 = k) = true) :
    mapGet (mapSet t k v) k = some v := by
  simp only [mapSet, h, if_true]
  induction t with
  | nil => simp at h
  | cons hd tl ih =>
      by_cases hk : hd.1 = k
      · simp only [List.map_cons, if_pos hk, mapGet]
        rw [List.find?_cons_of_pos _ (by simp)]
        rfl
      · simp only [List.any_cons] at h
        rw [Bool.or_eq_true] at h
        have htl : (tl.any fun p => p.1 = k) = true := by
          rcases h with h | h
          · exact absurd (by simpa using h) hk
          · exact h
        simp only [List.map_cons, if_neg hk]
        simp only [mapGet] at ih ⊢
        rw [List.find?_cons_of_neg _ (by simpa using hk)]
        exact ih htl

/-- C9: on a table within its size cap, `ttStore` never replaces a stored
entry with a shallower one (strictly deeper stored entries are kept
unchanged, others are overwritten), and `ttLookup` returns a stored entry
exactly when one exists for the hash with depth at least the requested
depth. -/
theorem C9_tt_depth_preferred (t : TTable) (hash depth : ℕ) (score : ℚ)
    (flag : TTFlag) (bestMove : Option Move) (e : TTEntry)
    (hsize : t.length ≤ TT_SIZE) (he : mapGet t hash = some e) :
    (depth < e.depth → ttStore t hash depth score flag bestMove = t) ∧
    (e.depth ≤ depth → mapGet (ttStore t hash depth score flag bestMove) hash =
      some ⟨hash, depth, score, flag, bestMove⟩) ∧
    (∀ (t2 : TTable) (h2 d2 : ℕ) (e2 : TTEntry),
      ttLookup t2 h2 d2 = some e2 ↔ (mapGet t2 h2 = some e2 ∧ d2 ≤ e2.depth)) := by
  refine ⟨?_, ?_, ?_⟩
  · intro hlt
    simp only [ttStore, he]
    rw [if_neg (show ¬e.depth ≤ depth by omega)]
    rw [if_neg (show ¬TT_SIZE < t.length by omega)]
  · intro hle
    have hany := any_key_of_mapGet_some t hash e he
    simp only [ttStore, he]
    rw [if_pos hle]
    rw [if_neg (by
      simp only [mapSet]
      rw [if_pos hany]
      simp only [List.length_map]
      omega)]

    exact mapGet_mapSet_self t hash _ hany
  · intro t2 h2 d2 e2
    rcases hg : mapGet t2 h2 with _ | entry <;>
      simp only [ttLookup, hg]
    · simp
    · by_cases hd : d2 ≤ entry.depth
      · rw [if_pos hd]
        constructor
        · rintro h
          obtain rfl : entry = e2 := by simpa using h
          exact ⟨rfl, hd⟩
        · rintro ⟨h1, -⟩
          simpa using h1
      · rw [if_neg hd]
        constructor
        · rintro ⟨⟩
        · rintro ⟨h1, h2⟩
          obtain rfl : entry = e2 := by simpa using h1
          omega

/-- Mutable state of positionHistory.ts, passed explicitly: occurrence
counts per position hash, per-color best (minimum) total distance to goal,
per-color stagnation counters and the global move counter.  The JS maps
are modelled as functions (`counts` defaults to 0 like `get(..) || 0`;
`bestProgress` keeps the absent case explicit because it defaults to
`Infinity`). -/
structure PosHistory where
  counts : ℕ → ℕ
  bestProgress : PColor → Option ℕ
  stagnation : PColor → ℕ
  moveCount : ℕ

/-- Fresh history (source: positionHistory.ts `resetPositionHistory`). -/
def resetPositionHistory : PosHistory :=
  ⟨fun _ => 0, fun _ => none, fun _ => 0, 0⟩

/-- Total distance of all of a color's pieces from its goal line (source:
positionHistory.ts `calculateTotalDistance`). -/
def calculateTotalDistance (board : Board) (color : PColor) : ℕ :=
  let goalLine := getGoalLine color
  boardCoords.foldl (fun total c =>
    match getCell board c.1 c.2 with
    | some p =>
        if p.color = color then
          total + (if goalLine.axis = Axis.y then (c.2 - goalLine.value).natAbs
            else (c.1 - goalLine.value).natAbs)
        else total
    | none => total) 0

/-- The player before `current` in the fixed 4-player order red → green →
blue → yellow (source: positionHistory.ts `getPreviousPlayer`). -/
def getPreviousPlayer : PColor → PColor
  | .red => .yellow
  | .green => .red
  | .blue => .green
  | .yellow => .blue

/-- Record a position: bump the occurrence count of (board, player to
move), then update the previous player's best distance and stagnation
counter (source: positionHistory.ts `recordPosition`).  Returns the new
count as the source does. -/
def recordPosition (st : PosHistory) (board : Board) (currentPlayer : PColor) :
    PosHistory × ℕ :=
  let h := computeHash board currentPlayer
  let cnt := st.counts h + 1
  let counts2 : ℕ → ℕ := fun k => if k = h then cnt else st.counts k
  let prevPlayer := getPreviousPlayer currentPlayer
  let currentDist := calculateTotalDistance board prevPlayer
  let progressed : Bool :=
    match st.bestProgress prevPlayer with
    | none => true
    | some prevBest => currentDist < prevBest
  if progressed then
    (⟨counts2,
      fun c => if c = prevPlayer then some currentDist else st.bestProgress c,
      fun c => if c = prevPlayer then 0 else st.stagnation c,
      st.moveCount + 1⟩, cnt)
  else
    (⟨counts2, st.bestProgress,
      fun c => if c = prevPlayer then st.stagnation c + 1 else st.stagnation c,
      st.moveCount + 1⟩, cnt)

/-- Occurrence count of a position (source: `getPositionCount`). -/
def getPositionCount (st : PosHistory) (board : Board) (currentPlayer : PColor) :
    ℕ :=
  st.counts (computeHash board currentPlayer)

/-- Repetition threshold (source: `MAX_REPETITIONS`). -/
def MAX_REPETITIONS : ℕ := 3

/-- Near-threshold repetition flag (source: `wouldCauseRepetition`). -/
def wouldCauseRepetition (st : PosHistory) (board : Board)
    (currentPlayer : PColor) : Bool :=
  MAX_REPETITIONS - 1 ≤ getPositionCount st board currentPlayer

/-- Stagnation penalty: zero below 3 stagnant moves, exponential beyond,
scaled by the move count (source: `getStagnationPenalty`). -/
def getStagnationPenalty (st : PosHistory) (player : PColor) : ℚ :=
  let stag := st.stagnation player
  if stag < 3 then 0
  else
    let moveMultiplier : ℚ := min ((st.moveCount : ℚ) / 50) 3
    500 * (3 / 2) ^ (stag - 3) * moveMultiplier

/-- Repetition penalty: doubling per repeat, scaled by the move count
(source: `getRepetitionPenalty`). -/
def getRepetitionPenalty (st : PosHistory) (board : Board)
    (currentPlayer : PColor) : ℚ :=
  let count := getPositionCount st board currentPlayer
  if count = 0 then 0
  else
    let moveMultiplier : ℚ := min (1 + (st.moveCount : ℚ) / 100) (5 / 2)
    2000 * 2 ^ (count - 1) * moveMultiplier

/-- Combined repetition and stagnation penalty (source:
`getCombinedPenalty`). -/
def getCombinedPenalty (st : PosHistory) (board : Board)
    (currentPlayer : PColor) : ℚ :=
  getRepetitionPenalty st board currentPlayer + getStagnationPenalty st currentPlayer

/-- Advisory draw flag (source: `isDrawByRepetition`). -/
def isDrawByRepetition (st : PosHistory) (board : Board)
    (currentPlayer : PColor) : Bool :=
  MAX_REPETITIONS ≤ getPositionCount st board currentPlayer

/-- Folding `recordPosition` over a sequence of (board, next player to
move) records, as the turn loop does. -/
def applyRecords (st : PosHistory) (l : List (Board × PColor)) : PosHistory :=
  l.foldl (fun s r => (recordPosition s r.1 r.2).1) st

/-- In a record sequence whose movers are only red and blue, red's and
blue's stagnation counters are never written. -/
lemma stagnation_frozen_of_two_player (st : PosHistory)
    (l : List (Board × PColor))
    (hl : ∀ r ∈ l, r.2 = PColor.red ∨ r.2 = PColor.blue)
    (c : PColor) (hc : c = PColor.red ∨ c = PColor.blue) :
    (applyRecords st l).stagnation c = st.stagnation c := by
  induction l generalizing st with
  | nil => rfl
  | cons hd tl ih =>
      have hhd := hl hd (List.mem_cons_self hd tl)
      have hprev : getPreviousPlayer hd.2 ≠ c := by
        rcases hhd with h | h <;> rcases hc with rfl | rfl <;>
          rw [h] <;> simp [getPreviousPlayer]
      have hstep : ((recordPosition st hd.1 hd.2).1).stagnation c =
          st.stagnation c := by
        simp only [recordPosition]
        split_ifs <;> exact if_neg (fun h => hprev h.symm)
      calc (applyRecords st (hd :: tl)).stagnation c
          = (applyRecords ((recordPosition st hd.1 hd.2).1) tl).stagnation c := rfl
        _ = ((recordPosition st hd.1 hd.2).1).stagnation c :=
            ih _ (fun r hr => hl r (List.mem_cons_of_mem hd hr))
        _ = st.stagnation c := hstep

/-- C10: `recordPosition` attributes the move that produced the position
using the fixed 4-player order red → green → blue → yellow, so with next
mover blue it updates green's counters and with next mover red it updates
yellow's; consequently, starting from a fresh history, any 2-player record
sequence (movers only red and blue) leaves red's and blue's stagnation
counters at zero, their stagnation penalties at zero, and the stagnation
component of `getCombinedPenalty` vanishes for them. -/
theorem C10_two_player_stagnation_zero (l : List (Board × PColor))
    (hl : ∀ r ∈ l, r.2 = PColor.red ∨ r.2 = PColor.blue) :
    getPreviousPlayer PColor.blue = PColor.green ∧
    getPreviousPlayer PColor.red = PColor.yellow ∧
    ∀ c, (c = PColor.red ∨ c = PColor.blue) →
      (applyRecords resetPositionHistory l).stagnation c = 0 ∧
      getStagnationPenalty (applyRecords resetPositionHistory l) c = 0 ∧
      ∀ board, getCombinedPenalty (applyRecords resetPositionHistory l) board c =
        getRepetitionPenalty (applyRecords resetPositionHistory l) board c := by
  refine ⟨rfl, rfl, fun c hc => ?_⟩
  have hz : (applyRecords resetPositionHistory l).stagnation c = 0 :=
    stagnation_frozen_of_two_player resetPositionHistory l hl c hc
  have hpen : getStagnationPenalty (applyRecords resetPositionHistory l) c = 0 := by
    simp only [getStagnationPenalty, hz]
    norm_num
  exact ⟨hz, hpen, fun board => by
    simp only [getCombinedPenalty, hpen, add_zero]⟩

/-- A red triangle used in concrete boards. -/
def redTrianglePiece : Piece := ⟨"red-triangle-1", .triangle, .red⟩

/-- Board with an obstacle at (5,7), the midpoint of a length-3 vertical
leap from (5,5) to (5,8). -/
def leapWitnessBoard : Board := setCell emptyBoard 5 7 (some obstaclePiece)

/-- Witness for C4: the characterization applied to a concrete length-3
orthogonal leap accepts it. -/
theorem C4_leap_characterization_witness :
    isMoveValid redSquarePiece ⟨5, 5⟩ ⟨5, 8⟩ leapWitnessBoard = true :=
  ((C4_leap_characterization redSquarePiece ⟨5, 5⟩ ⟨5, 8⟩ leapWitnessBoard 0 3 3
    (by decide) (by decide) (by decide) (by decide) (by decide) (by decide)
    (by decide) (by decide) (by decide)).1 (by decide)).mpr
    ⟨by decide, by decide, by
      intro k hk1 hk3 hkob
      interval_cases k
      · decide
      · omega, by decide⟩

/-- Board with an obstacle at (5,6), the midpoint of a vertical jump from
(5,5) to (5,7). -/
def jumpWitnessBoard : Board := setCell emptyBoard 5 6 (some obstaclePiece)

/-- Witness for C5: the characterization applied to a concrete orthogonal
jump accepts it. -/
theorem C5_jump_characterization_witness :
    isMoveValid redSquarePiece ⟨5, 5⟩ ⟨5, 7⟩ jumpWitnessBoard = true :=
  (C5_jump_characterization redSquarePiece ⟨5, 5⟩ ⟨5, 7⟩ jumpWitnessBoard 0 2
    (by decide) (by decide) (by decide) (by decide) (by decide) (by decide)
    (by decide)).mpr ⟨by decide, by decide, by decide⟩

/-- Witness for C6: a red triangle on its starting row may move sideways. -/
theorem C6_startline_sideways_always_valid_witness :
    isMoveValid redTrianglePiece ⟨5, 0⟩ ⟨6, 0⟩ emptyBoard = true :=
  C6_startline_sideways_always_valid redTrianglePiece ⟨5, 0⟩ ⟨6, 0⟩ emptyBoard
    (by decide) (Or.inl ⟨by decide, by decide, Or.inl (by decide)⟩)
    (by decide) (by decide) (by decide)

/-- A concrete one-step move of the red square from (0,0) to (1,0). -/
def stepMove : Move := ⟨⟨0, 0⟩, ⟨1, 0⟩, redSquarePiece⟩

/-- Witness for C7 (amended): applying the frame theorem to a concrete
move puts the piece on the destination. -/
theorem C7_simulateMove_frame_witness :
    getCell (simulateMove squareAtOriginBoard stepMove) stepMove.toPos.x
      stepMove.toPos.y = some redSquarePiece :=
  (((C7_simulateMove_frame squareAtOriginBoard stepMove (by decide) (by decide)
    (by decide) (by decide) (by decide)).1 redSquarePiece (by decide))).2.1

/-- Witness for C8: moving the red square from (0,0) to (1,0) and back
restores the hash. -/
theorem C8_computeHash_move_inverse_witness :
    computeHash (simulateMove (simulateMove squareAtOriginBoard stepMove)
      ⟨stepMove.toPos, stepMove.fromPos, stepMove.piece⟩) PColor.red =
      computeHash squareAtOriginBoard PColor.red :=
  (C8_computeHash_move_inverse).2 squareAtOriginBoard stepMove PColor.red
    redSquarePiece (by decide) (by decide) (by decide) (by decide) (by decide)
    (by decide)

/-- A depth-3 table entry under key 5. -/
def ttWitnessEntry : TTEntry := ⟨5, 3, 42, TTFlag.exact, none⟩

/-- A one-entry table. -/
def ttWitnessTable : TTable := [(5, ttWitnessEntry)]

/-- Witness for C9: storing a shallower entry for the same hash leaves the
table unchanged. -/
theorem C9_tt_depth_preferred_witness :
    ttStore ttWitnessTable 5 1 0 TTFlag.lower none = ttWitnessTable :=
  (C9_tt_depth_preferred ttWitnessTable 5 1 0 TTFlag.lower none ttWitnessEntry
    (by decide) (by decide)).1 (by decide)

/-- Witness for C10: after one blue-to-move record, red's stagnation
counter is still zero. -/
theorem C10_two_player_stagnation_zero_witness :
    (applyRecords resetPositionHistory [(emptyBoard, PColor.blue)]).stagnation
      PColor.red = 0 :=
  ((C10_two_player_stagnation_zero [(emptyBoard, PColor.blue)]
    (by intro r hr; simp at hr; rw [hr]; exact Or.inr rfl)).2.2 PColor.red
    (Or.inl rfl)).1

/-- Win score (source: ai/evaluator.ts `SCORE_WIN`). -/
def SCORE_WIN : ℚ := 999999

/-- Loss score (source: ai/evaluator.ts `SCORE_LOSS`). -/
def SCORE_LOSS : ℚ := -999999

/-- Goal-line membership test (source: ai/evaluator.ts `isAtGoal` and the
identical check in utils/winCondition.ts). -/
def isAtGoal (color : PColor) (x y : ℤ) : Bool :=
  let goalLine := getGoalLine color
  if goalLine.axis = Axis.y then y = goalLine.value else x = goalLine.value

/-- Distance of a cell from a color's goal line (source: ai/evaluator.ts
`distToGoal`). -/
def distToGoal (color : PColor) (x y : ℤ) : ℕ :=
  let goalLine := getGoalLine color
  if goalLine.axis = Axis.y then (y - goalLine.value).natAbs
  else (x - goalLine.value).natAbs

/-- Per-color piece counts: (total, at goal) (source: utils/winCondition.ts
`getPieceCounts`, restricted to one color). -/
def getPieceCounts (board : Board) (c : PColor) : ℕ × ℕ :=
  boardCoords.foldl (fun acc cell =>
    match getCell board cell.1 cell.2 with
    | some p =>
        if p.color = c then
          (acc.1 + 1, acc.2 + (if isAtGoal p.color cell.1 cell.2 then 1 else 0))
        else acc
    | none => acc) (0, 0)

/-- First color (in the fixed order) not yet placed with all its live
pieces on its goal line (source: utils/winCondition.ts `checkWinner`). -/
def checkWinner (board : Board) (placements : List PColor) : Option PColor :=
  [PColor.red, PColor.blue, PColor.yellow, PColor.green].find? fun c =>
    !(placements.contains c) &&
      (let counts := getPieceCounts board c
       decide (0 < counts.1 ∧ counts.1 = counts.2))

/-- Accumulator of the evaluator's per-cell loop. -/
structure EvalAcc where
  score : ℚ
  myTotal : ℕ
  myAtGoal : ℕ
  oppTotal : ℕ
  oppAtGoal : ℕ

/-- Static board evaluation from one color's perspective; the module-level
`getMoveCount()` of the source is passed explicitly as `moveNum` (source:
ai/evaluator.ts `evaluateBoard`). -/
def evaluateBoard (board : Board) (color : PColor) (moveNum : ℕ) : ℚ :=
  match checkWinner board [] with
  | some winner => if winner = color then SCORE_WIN else SCORE_LOSS
  | none =>
      let progressMultiplier : ℚ := min (1 + (moveNum : ℚ) / 100) 3
      let wProgress : ℚ := 50 * progressMultiplier
      let wGoal : ℚ := 2000 * progressMultiplier
      let acc := boardCoords.foldl (fun (acc : EvalAcc) cell =>
        match getCell board cell.1 cell.2 with
        | some piece =>
            let d := distToGoal piece.color cell.1 cell.2
            let progressScore : ℚ := (10 - 1 - (d : ℚ)) * wProgress
            let atGoal := isAtGoal piece.color cell.1 cell.2
            if piece.color = color then
              ⟨acc.score + 100 + progressScore + (if atGoal then wGoal else 0),
                acc.myTotal + 1, acc.myAtGoal + (if atGoal then 1 else 0),
                acc.oppTotal, acc.oppAtGoal⟩
            else
              ⟨acc.score - 100 - progressScore - (if atGoal then wGoal else 0),
                acc.myTotal, acc.myAtGoal, acc.oppTotal + 1,
                acc.oppAtGoal + (if atGoal then 1 else 0)⟩
        | none => acc) ⟨0, 0, 0, 0, 0⟩
      let s1 := acc.score +
        (if 0 < acc.myTotal ∧ acc.myTotal - 1 ≤ acc.myAtGoal then 10000 else 0)
      let s2 := s1 -
        (if 0 < acc.oppTotal ∧ acc.oppTotal - 1 ≤ acc.oppAtGoal then 10000 else 0)
      if 50 < moveNum then
        let maxOppAtGoal := max acc.oppAtGoal 1
        if acc.myAtGoal < maxOppAtGoal then
          s2 - 500 * ((maxOppAtGoal - acc.myAtGoal : ℕ) : ℚ) * progressMultiplier
        else s2
      else s2

/-- Distinct colors present on the board, in scan order. -/
def boardColors (board : Board) : List PColor :=
  boardCoords.foldl (fun acc c =>
    match getCell board c.1 c.2 with
    | some p => if p.color ∈ acc then acc else acc ++ [p.color]
    | none => acc) []

/-- 2- or 4-player detection from the number of distinct colors (source:
ai/minimax.ts and ai/mcts.ts `detectPlayerCount`). -/
def detectPlayerCount (board : Board) : ℕ :=
  if 2 < (boardColors board).length then 4 else 2

/-- Turn order in 2-player mode. -/
def PLAYER_ORDER_2P : List PColor := [.red, .blue]

/-- Turn order in 4-player mode. -/
def PLAYER_ORDER_4P : List PColor := [.red, .green, .blue, .yellow]

/-- Next player in the detected turn order; a color missing from the order
has JS `indexOf` value -1, wrapping to the order's first entry (source:
ai/minimax.ts `getNextPlayer`). -/
def getNextPlayer (player : PColor) (board : Board) : PColor :=
  let order := if detectPlayerCount board = 4 then PLAYER_ORDER_4P
    else PLAYER_ORDER_2P
  let idx := order.indexOf player
  let jsIdx : ℤ := if idx = order.length then -1 else (idx : ℤ)
  order.getD ((jsIdx + 1) % (order.length : ℤ)).toNat player

/-- AI difficulty names (source: types/game.ts `AIDifficulty`). -/
inductive AIDifficulty where
  | beginner
  | easy
  | medium
  | challenging
  | hard
  | master
  | grandmaster
deriving DecidableEq, Repr

/-- Search configuration; fields in order: depth, useRepetitionPenalty,
randomness, useTT, useIterativeDeepening, useMCTS, mctsSimulations,
timeLimit.  Optional JS fields become `Bool`/`Option` with the JS
undefined reading as `false`/`none` (source: ai/types.ts `AIConfig`). -/
structure AIConfig where
  depth : ℕ
  useRepetitionPenalty : Bool
  randomness : ℚ
  useTT : Bool
  useIterativeDeepening : Bool
  useMCTS : Bool
  mctsSimulations : Option ℕ
  timeLimit : Option ℚ
deriving DecidableEq, Repr

/-- The difficulty table (source: ai/minimax.ts `AI_DIFFICULTIES`). -/
def AI_DIFFICULTIES : AIDifficulty → AIConfig
  | .beginner => ⟨0, true, 100, false, false, false, none, none⟩
  | .easy => ⟨1, true, 30, false, false, false, none, none⟩
  | .medium => ⟨2, true, 10, false, false, false, none, none⟩
  | .challenging => ⟨3, true, 0, true, false, false, none, none⟩
  | .hard => ⟨4, true, 0, true, true, false, none, some 3000⟩
  | .master => ⟨0, true, 0, false, false, true, some 2000, none⟩
  | .grandmaster => ⟨5, true, 0, true, true, true, some 3000, some 5000⟩

/-- JS truthiness of an optional numeric field. -/
def truthyTL : Option ℚ → Bool
  | some t => t ≠ 0
  | none => false

/-- The `fromX,fromY->toX,toY` string key of a move. -/
abbrev MoveKey : Type := ℤ × ℤ × ℤ × ℤ

/-- Key of a move (source: `hashMoveStr` / `hashMove` / `moveKey`). -/
def moveKeyOf (m : Move) : MoveKey :=
  (m.fromPos.x, m.fromPos.y, m.toPos.x, m.toPos.y)

/-- Key of the reverse of a move. -/
def reverseKeyOf (m : Move) : MoveKey :=
  (m.toPos.x, m.toPos.y, m.fromPos.x, m.fromPos.y)

/-- Oscillation test against the recent-move buffer (source: ai/minimax.ts
`isReverseOfRecent`, ai/mcts.ts `isReverseMove`). -/
def isReverseOfRecent (recent : List MoveKey) (m : Move) : Bool :=
  recent.contains (reverseKeyOf m)

/-- Repeat test against the recent-move buffer (source: ai/mcts.ts
`isSameMove`). -/
def isSameMoveRecent (recent : List MoveKey) (m : Move) : Bool :=
  recent.contains (moveKeyOf m)

/-- Forward progress of a move toward the player's goal line (source:
ai/moveOrdering.ts `getForwardProgress`). -/
def getForwardProgress (move : Move) (player : PColor) : ℤ :=
  let goalLine := getGoalLine player
  if goalLine.axis = Axis.y then
    ((move.fromPos.y - goalLine.value).natAbs : ℤ) -
      ((move.toPos.y - goalLine.value).natAbs : ℤ)
  else
    ((move.fromPos.x - goalLine.value).natAbs : ℤ) -
      ((move.toPos.x - goalLine.value).natAbs : ℤ)

/-- Static ordering score without the hash-move shortcut. -/
def scoreMoveBase (move : Move) (player : PColor) : ℚ :=
  let goalLine := getGoalLine player
  let reachesGoal :=
    if goalLine.axis = Axis.y then move.toPos.y = goalLine.value
    else move.toPos.x = goalLine.value
  let s1 : ℚ := if reachesGoal then 5000 else 0
  let dx := (move.toPos.x - move.fromPos.x).natAbs
  let dy := (move.toPos.y - move.fromPos.y).natAbs
  let s2 : ℚ := if 1 < dx ∨ 1 < dy then 1000 + ((dx + dy : ℕ) : ℚ) * 100 else 0
  let s3 : ℚ := (getForwardProgress move player : ℚ) * 100
  let centerDist : ℚ :=
    |(move.toPos.x : ℚ) - 9 / 2| + |(move.toPos.y : ℚ) - 9 / 2|
  let s4 : ℚ := (10 - centerDist) * 5
  s1 + s2 + s3 + s4

/-- Static ordering score of a move; a transposition-table hash move gets
an absolute priority of 10000 (source: ai/moveOrdering.ts `scoreMove`). -/
def scoreMove (move : Move) (player : PColor) (hashMove : Option Move) : ℚ :=
  match hashMove with
  | some hm =>
      if move.fromPos.x = hm.fromPos.x ∧ move.fromPos.y = hm.fromPos.y ∧
          move.toPos.x = hm.toPos.x ∧ move.toPos.y = hm.toPos.y then 10000
      else scoreMoveBase move player
  | none => scoreMoveBase move player

/-- Static move ordering: stable descending sort by `scoreMove` (source:
ai/moveOrdering.ts `orderMoves`; `Array.sort` with a `b.score - a.score`
comparator is a stable descending sort). -/
def orderMoves (moves : List Move) (player : PColor) (hashMove : Option Move) :
    List Move :=
  ((moves.map fun m => (m, scoreMove m player hashMove)).mergeSort
    fun a b => b.2 ≤ a.2).map Prod.fst

/-- Killer-move table: depth → up to two cutoff moves. -/
abbrev Killers : Type := List (ℕ × List Move)

/-- Killers stored for a depth (source: ai/moveOrdering.ts `getKillers`). -/
def getKillers (ks : Killers) (depth : ℕ) : List Move :=
  ((ks.find? fun p => p.1 = depth).map Prod.snd).getD []

/-- Record a beta-cutoff move for a depth: prepend unless a duplicate,
keep at most two (source: ai/moveOrdering.ts `storeKiller`). -/
def storeKiller (ks : Killers) (depth : ℕ) (move : Move) : Killers :=
  let killers := getKillers ks depth
  let isDuplicate := killers.any fun k =>
    k.fromPos.x = move.fromPos.x ∧ k.fromPos.y = move.fromPos.y ∧
      k.toPos.x = move.toPos.x ∧ k.toPos.y = move.toPos.y
  if isDuplicate then ks
  else
    let killers2 := move :: killers
    let killers3 := if 2 < killers2.length then killers2.dropLast else killers2
    if ks.any fun p => p.1 = depth then
      ks.map fun p => if p.1 = depth then (depth, killers3) else p
    else ks ++ [(depth, killers3)]

/-- History-heuristic table keyed by move signature. -/
abbrev HistoryT : Type := List (MoveKey × ℚ)

/-- Cumulative history score of a move (source: ai/moveOrdering.ts
`getHistoryScore`). -/
def getHistoryScore (ht : HistoryT) (m : Move) : ℚ :=
  ((ht.find? fun p => p.1 = moveKeyOf m).map Prod.snd).getD 0

/-- Add `depth²` to a cutoff move's history score (source:
ai/moveOrdering.ts `updateHistory`). -/
def updateHistory (ht : HistoryT) (m : Move) (depth : ℕ) : HistoryT :=
  let k := moveKeyOf m
  let v := getHistoryScore ht m + (depth : ℚ) * depth
  if ht.any fun p => p.1 = k then
    ht.map fun p => if p.1 = k then (k, v) else p
  else ht ++ [(k, v)]

/-- Full move ordering with killer and history bonuses (source:
ai/moveOrdering.ts `orderMovesAdvanced`). -/
def orderMovesAdvanced (ks : Killers) (ht : HistoryT) (moves : List Move)
    (player : PColor) (depth : ℕ) (hashMove : Option Move) : List Move :=
  let killers := getKillers ks depth
  ((moves.map fun m =>
    let base := scoreMove m player hashMove
    let isKiller := killers.any fun k =>
      k.fromPos.x = m.fromPos.x ∧ k.fromPos.y = m.fromPos.y ∧
        k.toPos.x = m.toPos.x ∧ k.toPos.y = m.toPos.y
    (m, base + (if isKiller then 3000 else 0) + getHistoryScore ht m)).mergeSort
    fun a b => b.2 ≤ a.2).map Prod.fst

/-- All module-level mutable state of the AI, passed explicitly, plus the
consumed prefix lengths of the `Math.random` and `performance.now`
oracles. -/
structure AIState where
  recentMoves : List MoveKey
  mctsRecentMoves : List MoveKey
  killers : Killers
  history : HistoryT
  tt : TTable
  posHist : PosHistory
  randIdx : ℕ
  clockIdx : ℕ

/-- Fresh state, as after `resetAIHistory`. -/
def initialAIState : AIState := ⟨[], [], [], [], [], resetPositionHistory, 0, 0⟩

/-- State with replaced transposition table. -/
def AIState.withTT (s : AIState) (tt : TTable) : AIState :=
  ⟨s.recentMoves, s.mctsRecentMoves, s.killers, s.history, tt, s.posHist,
    s.randIdx, s.clockIdx⟩

/-- State with replaced killer and history tables. -/
def AIState.withKH (s : AIState) (ks : Killers) (ht : HistoryT) : AIState :=
  ⟨s.recentMoves, s.mctsRecentMoves, ks, ht, s.tt, s.posHist, s.randIdx,
    s.clockIdx⟩

/-- State with replaced killer table. -/
def AIState.withKillers (s : AIState) (ks : Killers) : AIState :=
  ⟨s.recentMoves, s.mctsRecentMoves, ks, s.history, s.tt, s.posHist, s.randIdx,
    s.clockIdx⟩

/-- State with replaced recent-move buffer. -/
def AIState.withRecent (s : AIState) (r : List MoveKey) : AIState :=
  ⟨r, s.mctsRecentMoves, s.killers, s.history, s.tt, s.posHist, s.randIdx,
    s.clockIdx⟩

/-- State with replaced MCTS recent-move buffer. -/
def AIState.withMctsRecent (s : AIState) (r : List MoveKey) : AIState :=
  ⟨s.recentMoves, r, s.killers, s.history, s.tt, s.posHist, s.randIdx,
    s.clockIdx⟩

/-- State with advanced random-oracle index. -/
def AIState.withRandIdx (s : AIState) (n : ℕ) : AIState :=
  ⟨s.recentMoves, s.mctsRecentMoves, s.killers, s.history, s.tt, s.posHist, n,
    s.clockIdx⟩

/-- State with advanced clock-oracle index. -/
def AIState.withClockIdx (s : AIState) (n : ℕ) : AIState :=
  ⟨s.recentMoves, s.mctsRecentMoves, s.killers, s.history, s.tt, s.posHist,
    s.randIdx, n⟩

/-- Search infinity (source: ai/minimax.ts `INFINITY`). -/
def INFINITY : ℚ := 1000000

/-- Oscillation penalty (source: ai/minimax.ts `REPETITION_PENALTY`). -/
def REPETITION_PENALTY : ℚ := 1500

/-- Recent-move buffer capacity (source: `MAX_RECENT_MOVES`). -/
def MAX_RECENT_MOVES : ℕ := 12

/-- Push a move key onto a bounded FIFO buffer. -/
def pushRecent (r : List MoveKey) (k : MoveKey) : List MoveKey :=
  let r2 := r ++ [k]
  if MAX_RECENT_MOVES < r2.length then r2.drop 1 else r2

/-- Transposition-table probe at the top of `minimaxSearch`: either an
early score or the tightened (alpha, beta) window. -/
def minimaxTTProbe (config : AIConfig) (s : AIState) (board : Board)
    (player : PColor) (depth : ℕ) (alpha beta : ℚ) : Option ℚ × ℚ × ℚ :=
  if config.useTT then
    match ttLookup s.tt (computeHash board player) depth with
    | some entry =>
        if entry.flag = TTFlag.exact then (some entry.score, alpha, beta)
        else
          let alpha2 := if entry.flag = TTFlag.lower then max alpha entry.score
            else alpha
          let beta2 := if entry.flag = TTFlag.upper then min beta entry.score
            else beta
          if beta2 ≤ alpha2 then (some entry.score, alpha2, beta2)
          else (none, alpha2, beta2)
    | none => (none, alpha, beta)
  else (none, alpha, beta)

/-- The leaf evaluation of `minimaxSearch` (depth 0 or no legal moves): a
non-root mover of a 4-player position returns `-0.7·own + 0.3·root`, the
root's-perspective negation of the opponent's 70/30 mix; otherwise the
root's evaluation (source: ai/minimax.ts `minimaxSearch`, depth-0 and
empty-move branches). -/
def minimaxLeafScore (board : Board) (player rootPlayer : PColor) (mc : ℕ) : ℚ :=
  if detectPlayerCount board = 4 ∧ player ≠ rootPlayer then
    -(evaluateBoard board player mc) * (7 / 10) +
      evaluateBoard board rootPlayer mc * (3 / 10)
  else evaluateBoard board rootPlayer mc

/-- Accumulator of the alpha-beta move loop. -/
structure MMLoopState where
  bestScore : ℚ
  bestMove : Option Move
  alpha : ℚ
  beta : ℚ
  st : AIState
  broke : Bool

/-- One iteration of the alpha-beta move loop of `minimaxSearch`:
recursive search, best-score bookkeeping, window update and beta-cutoff
(recording killer/history moves when the cutoff fires). -/
def minimaxSearchStep (config : AIConfig) (rootPlayer : PColor)
    (recur : Board → PColor → ℚ → ℚ → Bool → AIState → ℚ × AIState)
    (board : Board) (player : PColor) (isMaximizing : Bool) (playerCount : ℕ)
    (depth : ℕ) (acc : MMLoopState) (move : Move) : MMLoopState :=
  if acc.broke then acc
  else
    let newBoard := simulateMove board move
    let nextPlayer := getNextPlayer player newBoard
    let nextIsMaximizing :=
      if playerCount = 4 then nextPlayer = rootPlayer else !isMaximizing
    let res := recur newBoard nextPlayer acc.alpha acc.beta nextIsMaximizing acc.st
    let score := res.1
    let s1 := res.2
    let better := if isMaximizing then acc.bestScore < score
      else score < acc.bestScore
    let bestScore := if better then score else acc.bestScore
    let bestMove := if better then some move else acc.bestMove
    let alpha2 := if isMaximizing then max acc.alpha score else acc.alpha
    let beta2 := if isMaximizing then acc.beta else min acc.beta score
    if beta2 ≤ alpha2 then
      let s2 := if config.useTT then
        s1.withKH (storeKiller s1.killers depth move)
          (updateHistory s1.history move depth)
      else s1
      ⟨bestScore, bestMove, alpha2, beta2, s2, true⟩
    else ⟨bestScore, bestMove, alpha2, beta2, s1, false⟩

/-- Body of `minimaxSearch` at positive depth: move generation, ordering,
the alpha-beta loop and the transposition-table store. -/
def minimaxSearchBody (config : AIConfig) (rootPlayer : PColor)
    (recur : Board → PColor → ℚ → ℚ → Bool → AIState → ℚ × AIState)
    (depth : ℕ) (board : Board) (player : PColor) (alpha beta : ℚ)
    (isMaximizing : Bool) (s : AIState) : ℚ × AIState :=
  let moves := getAllLegalMoves board player
  if moves.isEmpty then
    (minimaxLeafScore board player rootPlayer s.posHist.moveCount, s)
  else
    let moves2 :=
      if config.useTT then
        orderMovesAdvanced s.killers s.history moves player depth
          ((ttLookup s.tt (computeHash board player) depth).bind (·.bestMove))
      else moves
    let origAlpha := alpha
    let init : MMLoopState :=
      ⟨if isMaximizing then -INFINITY else INFINITY, none, alpha, beta, s, false⟩
    let fin := moves2.foldl
      (minimaxSearchStep config rootPlayer recur board player isMaximizing
        (detectPlayerCount board) depth) init
    let s2 :=
      if config.useTT then
        let flag :=
          if fin.bestScore ≤ origAlpha then TTFlag.upper
          else if fin.beta ≤ fin.bestScore then TTFlag.lower
          else TTFlag.exact
        fin.st.withTT (ttStore fin.st.tt (computeHash board player) depth
          fin.bestScore flag fin.bestMove)
      else fin.st
    (fin.bestScore, s2)

/-- Recursive alpha-beta search with transposition table; depth counts
down to the leaf evaluation (source: ai/minimax.ts `minimaxSearch`).  In
2-player mode max/min alternate; in 4-player mode only the root player
maximizes. -/
def minimaxSearch (config : AIConfig) (rootPlayer : PColor) :
    ℕ → Board → PColor → ℚ → ℚ → Bool → AIState → ℚ × AIState
  | 0 => fun board player alpha beta _ s =>
      match minimaxTTProbe config s board player 0 alpha beta with
      | (some score, _, _) => (score, s)
      | (none, _, _) =>
          (minimaxLeafScore board player rootPlayer s.posHist.moveCount, s)
  | d + 1 => fun board player alpha beta isMaximizing s =>
      match minimaxTTProbe config s board player (d + 1) alpha beta with
      | (some score, _, _) => (score, s)
      | (none, alpha1, beta1) =>
          minimaxSearchBody config rootPlayer
            (minimaxSearch config rootPlayer d) (d + 1) board player alpha1
            beta1 isMaximizing s

/-- One iteration of the root move loop: search the move to depth-1, apply
oscillation/repetition penalties and randomness, extend the scored list
and raise alpha (source: the move loop of ai/minimax.ts `minimaxRoot`). -/
def minimaxRootStep (rand : ℕ → ℚ) (board : Board) (currentPlayer : PColor)
    (config : AIConfig) (acc : List (Move × ℚ) × ℚ × AIState) (move : Move) :
    List (Move × ℚ) × ℚ × AIState :=
  let newBoard := simulateMove board move
  let nextPlayer := getNextPlayer currentPlayer newBoard
  let res := minimaxSearch config currentPlayer (config.depth - 1) newBoard
    nextPlayer acc.2.1 INFINITY false acc.2.2
  let st1 := res.2
  let score1 := res.1
  let score2 :=
    if config.useRepetitionPenalty ∧ isReverseOfRecent st1.recentMoves move then
      score1 - REPETITION_PENALTY
    else score1
  let score3 :=
    if config.useRepetitionPenalty then
      score2 - getCombinedPenalty st1.posHist newBoard nextPlayer
    else score2
  let withRand :=
    if 0 < config.randomness then
      (score3 + (rand st1.randIdx - 1 / 2) * config.randomness * 10,
        st1.withRandIdx (st1.randIdx + 1))
    else (score3, st1)
  (acc.1 ++ [(move, withRand.1)], max acc.2.1 withRand.1, withRand.2)

/-- Tail of the root search: stable descending sort of the scored moves,
head extraction, transposition store and oscillation-buffer push (source:
the tail of ai/minimax.ts `minimaxRoot`). -/
def minimaxRootFinish (board : Board) (currentPlayer : PColor)
    (config : AIConfig) (fin : List (Move × ℚ) × ℚ × AIState) :
    Option Move × AIState :=
  let sorted := fin.1.mergeSort fun a b => b.2 ≤ a.2
  let s2 := fin.2.2
  let s3 :=
    match sorted.head? with
    | some top =>
        if config.useTT then
          s2.withTT (ttStore s2.tt (computeHash board currentPlayer)
            config.depth top.2 TTFlag.exact (some top.1))
        else s2
    | none => s2
  let s4 :=
    match sorted.head? with
    | some top => s3.withRecent (pushRecent s3.recentMoves (moveKeyOf top.1))
    | none => s3
  (sorted.head?.map Prod.fst, s4)

/-- Root search for the plain minimax levels: order moves (hash move
first), score each via the alpha-beta search plus penalties and
randomness, pick the maximum, cache it in the transposition table and
record it in the oscillation buffer (source: ai/minimax.ts `minimaxRoot`). -/
def minimaxRoot (rand : ℕ → ℚ) (board : Board) (currentPlayer : PColor)
    (config : AIConfig) (s : AIState) : Option Move × AIState :=
  let moves := getAllLegalMoves board currentPlayer
  if moves.isEmpty then (none, s)
  else
    let hashMove : Option Move :=
      if config.useTT then
        (ttLookup s.tt (computeHash board currentPlayer) config.depth).bind
          (·.bestMove)
      else none
    let moves2 :=
      if config.useTT then
        orderMovesAdvanced s.killers s.history moves currentPlayer config.depth
          hashMove
      else orderMoves moves currentPlayer hashMove
    minimaxRootFinish board currentPlayer config
      (moves2.foldl (minimaxRootStep rand board currentPlayer config)
        ([], -INFINITY, s))

/-- Config with replaced depth, as the spread `{ ...config, depth }`. -/
def AIConfig.withDepth (c : AIConfig) (d : ℕ) : AIConfig :=
  ⟨d, c.useRepetitionPenalty, c.randomness, c.useTT, c.useIterativeDeepening,
    c.useMCTS, c.mctsSimulations, c.timeLimit⟩

/-- One depth iteration of iterative deepening: soft time check, root
search at the iteration's depth, keep the last non-null result. -/
def iterativeDeepeningStep (rand clock : ℕ → ℚ) (board : Board)
    (currentPlayer : PColor) (config : AIConfig) (startTime : ℚ)
    (acc : Option Move × AIState × Bool) (i : ℕ) :
    Option Move × AIState × Bool :=
  if acc.2.2 then acc
  else
    let depth := i + 1
    let st := acc.2.1
    let elapsed := clock st.clockIdx - startTime
    let st1 := st.withClockIdx (st.clockIdx + 1)
    if truthyTL config.timeLimit ∧
        config.timeLimit.getD 0 * (4 / 5) ≤ elapsed then
      (acc.1, st1, true)
    else
      let res := minimaxRoot rand board currentPlayer
        (config.withDepth depth) st1
      match res.1 with
      | some m => (some m, res.2, false)
      | none => (acc.1, res.2, false)

/-- Iterative deepening: clear killers, then re-run the root search at
depths 1..max, stopping before an iteration once 80% of the time budget is
spent, keeping the last completed result (source: ai/minimax.ts
`iterativeDeepening`).  `clock` is the `performance.now` oracle. -/
def iterativeDeepening (rand clock : ℕ → ℚ) (board : Board)
    (currentPlayer : PColor) (config : AIConfig) (s : AIState) :
    Option Move × AIState :=
  let startTime := clock s.clockIdx
  let s0 := (s.withClockIdx (s.clockIdx + 1)).withKillers []
  let fin := (List.range config.depth).foldl
    (iterativeDeepeningStep rand clock board currentPlayer config startTime)
    (none, s0, false)
  (fin.1, fin.2.1)

/-- An MCTS tree node: board snapshot, player to move, originating move,
visit count, cumulative value, untried moves and children.  The parent
reference of the source becomes recursion on the path (source: ai/types.ts
`MCTSNode`). -/
inductive MCTSTree : Type where
  | node (board : Board) (player : PColor) (move : Option Move) (visits : ℕ)
      (wins : ℚ) (untried : List Move) (children : List MCTSTree)

/-- Board snapshot of a node. -/
def MCTSTree.board : MCTSTree → Board
  | .node b _ _ _ _ _ _ => b

/-- Mover of a node. -/
def MCTSTree.player : MCTSTree → PColor
  | .node _ p _ _ _ _ _ => p

/-- Originating move of a node. -/
def MCTSTree.move : MCTSTree → Option Move
  | .node _ _ m _ _ _ _ => m

/-- Visit count of a node. -/
def MCTSTree.visits : MCTSTree → ℕ
  | .node _ _ _ v _ _ _ => v

/-- Cumulative value of a node. -/
def MCTSTree.wins : MCTSTree → ℚ
  | .node _ _ _ _ w _ _ => w

/-- Untried moves of a node. -/
def MCTSTree.untried : MCTSTree → List Move
  | .node _ _ _ _ _ u _ => u

/-- Children of a node. -/
def MCTSTree.children : MCTSTree → List MCTSTree
  | .node _ _ _ _ _ _ c => c

/-- Fresh node with all legal moves untried (source: ai/mcts.ts
`createNode`). -/
def createNode (board : Board) (player : PColor) (move : Option Move) :
    MCTSTree :=
  .node board player move 0 0 (getAllLegalMoves board player) []

/-- UCB1 value of a child given the parent's visit count; an unvisited
child has infinite priority (source: ai/mcts.ts `ucb1`, C = 1.41). -/
noncomputable def ucb1 (t : MCTSTree) (parentVisits : ℕ) : EReal :=
  if t.visits = 0 then ⊤
  else (((t.wins / t.visits : ℚ) : ℝ) : EReal) +
    (((1.41 : ℝ) * Real.sqrt (Real.log parentVisits / t.visits) : ℝ) : EReal)

open Classical in
/-- Index of the child selected by UCB1: the source scans `children`
keeping the first strict improvement over -∞ (source: ai/mcts.ts
`selectChild`). -/
noncomputable def selectChildIdx (t : MCTSTree) : ℕ :=
  (t.children.enum.foldl
    (fun (acc : ℕ × EReal) c =>
      if acc.2 < ucb1 c.2 t.visits then (c.1, ucb1 c.2 t.visits) else acc)
    (0, ⊥)).1

/-- Evaluation-based rollout, normalized to [0,1]; a non-root mover of a
4-player position uses the `0.7·own − 0.3·root` mix before normalization
(source: ai/mcts.ts `rollout`). -/
def rollout (board : Board) (currentPlayer rootPlayer : PColor) (mc : ℕ) : ℚ :=
  if detectPlayerCount board = 4 ∧ currentPlayer ≠ rootPlayer then
    let score := evaluateBoard board currentPlayer mc * (7 / 10) -
      evaluateBoard board rootPlayer mc * (3 / 10)
    max 0 (min 1 ((score + 100000) / 200000))
  else
    let score := evaluateBoard board rootPlayer mc
    max 0 (min 1 ((score + 100000) / 200000))

/-- The value a node adds to its own `wins` during backpropagation, given
the value arriving from below (source: ai/mcts.ts `backpropagate`). -/
def backpropApplied (is4P : Bool) (rootPlayer player : PColor) (v : ℚ) : ℚ :=
  if is4P then (if player = rootPlayer then v else 1 - v) else v

/-- The value a node passes to its parent during backpropagation: 4-player
passes the raw value, 2-player flips it at every level (source: ai/mcts.ts
`backpropagate`). -/
def backpropPassUp (is4P : Bool) (v : ℚ) : ℚ :=
  if is4P then v else 1 - v

mutual
/-- One MCTS simulation on a subtree: UCB1 selection down the tree, one
expansion (the source pops the LAST untried move), an evaluator rollout,
and backpropagation implemented on the recursion path; returns the updated
subtree and the value passed to the parent (source: the
selection/expansion/rollout/backpropagation cycle of ai/mcts.ts
`mctsSearch`). -/
noncomputable def runSim (rootPlayer : PColor) (is4P : Bool) (mc : ℕ) :
    MCTSTree → MCTSTree × ℚ
  | .node board player move visits wins untried children =>
      if untried.isEmpty ∧ ¬children.isEmpty then
        let t0 : MCTSTree := .node board player move visits wins untried children
        let i := selectChildIdx t0
        let rc := runSimList rootPlayer is4P mc children i
        let v := rc.2
        (.node board player move (visits + 1)
          (wins + backpropApplied is4P rootPlayer player v) untried rc.1,
          backpropPassUp is4P v)
      else if ¬untried.isEmpty then
        match untried.getLast? with
        | some mv =>
            let newBoard := simulateMove board mv
            let nextPlayer := getNextPlayer player newBoard
            let v0 := rollout newBoard nextPlayer rootPlayer mc
            let child : MCTSTree := .node newBoard nextPlayer (some mv) 1
              (backpropApplied is4P rootPlayer nextPlayer v0)
              (getAllLegalMoves newBoard nextPlayer) []
            let v1 := backpropPassUp is4P v0
            (.node board player move (visits + 1)
              (wins + backpropApplied is4P rootPlayer player v1)
              untried.dropLast (children ++ [child]), backpropPassUp is4P v1)
        | none =>
            let v0 := rollout board player rootPlayer mc
            (.node board player move (visits + 1)
              (wins + backpropApplied is4P rootPlayer player v0) untried
              children, backpropPassUp is4P v0)
      else
        let v0 := rollout board player rootPlayer mc
        (.node board player move (visits + 1)
          (wins + backpropApplied is4P rootPlayer player v0) untried children,
          backpropPassUp is4P v0)

/-- Run the simulation in the i-th element of a child list, leaving the
others unchanged. -/
noncomputable def runSimList (rootPlayer : PColor) (is4P : Bool) (mc : ℕ) :
    List MCTSTree → ℕ → List MCTSTree × ℚ
  | [], _ => ([], 0)
  | c :: cs, 0 =>
      let r := runSim rootPlayer is4P mc c
      (r.1 :: cs, r.2)
  | c :: cs, i + 1 =>
      let r := runSimList rootPlayer is4P mc cs i
      (c :: r.1, r.2)
end

/-- Iterate `runSim` a fixed number of times from the root (the `for`
loop of ai/mcts.ts `mctsSearch`). -/
noncomputable def runSims (rootPlayer : PColor) (is4P : Bool) (mc : ℕ) :
    ℕ → MCTSTree → MCTSTree
  | 0, t => t
  | n + 1, t => runSims rootPlayer is4P mc n (runSim rootPlayer is4P mc t).1

/-- Final move selection of MCTS: score each root child by
visits × win-rate, discounted for oscillation/repeats, the combined
position penalty and near-term repetition; keep the strict maximum
(source: the final loop of ai/mcts.ts `mctsSearch`). -/
def mctsChoiceStep (s : AIState) (acc : Option (MCTSTree × ℚ))
    (child : MCTSTree) : Option (MCTSTree × ℚ) :=
  match child.move with
  | none => acc
  | some mv =>
      let winRate : ℚ :=
        if 0 < child.visits then child.wins / child.visits else 0
      let score0 := (child.visits : ℚ) * winRate
      let score1 :=
        if isReverseOfRecent s.mctsRecentMoves mv ∨
            isSameMoveRecent s.mctsRecentMoves mv then
          score0 * (3 / 10)
        else score0
      let positionPenalty :=
        getCombinedPenalty s.posHist child.board child.player
      let score2 :=
        if 0 < positionPenalty then score1 - positionPenalty / 1000
        else score1
      let score3 :=
        if wouldCauseRepetition s.posHist child.board child.player then
          score2 * (1 / 10)
        else score2
      match acc with
      | none => some (child, score3)
      | some best => if best.2 < score3 then some (child, score3) else acc

/-- Fold of the final-selection loop over the root's children. -/
def mctsFinalChoice (s : AIState) (children : List MCTSTree) :
    Option MCTSTree :=
  (children.foldl (mctsChoiceStep s) none).map Prod.fst

/-- Record a chosen move in the MCTS oscillation buffer (source:
ai/mcts.ts `recordMove`). -/
def recordMoveMcts (s : AIState) (m : Move) : AIState :=
  s.withMctsRecent (pushRecent s.mctsRecentMoves (moveKeyOf m))

/-- Monte Carlo tree search with a fixed simulation count (source:
ai/mcts.ts `mctsSearch`). -/
noncomputable def mctsSearch (board : Board) (currentPlayer : PColor)
    (simulations : ℕ) (s : AIState) : Option Move × AIState :=
  let root := createNode board currentPlayer none
  let is4P := detectPlayerCount board = 4
  if root.untried.isEmpty then (none, s)
  else if root.untried.length = 1 then
    match root.untried.head? with
    | some onlyMove => (some onlyMove, recordMoveMcts s onlyMove)
    | none => (none, s)
  else
    let finalRoot := runSims currentPlayer is4P s.posHist.moveCount simulations
      root
    match mctsFinalChoice s finalRoot.children with
    | some bestChild =>
        match bestChild.move with
        | some m => (some m, recordMoveMcts s m)
        | none => (none, s)
    | none => (none, s)

/-- Main entry point: dispatch by configuration to the random, MCTS,
iterative-deepening or fixed-depth root search (source: ai/minimax.ts
`getBestMove`).  `rand` and `clock` are the `Math.random` and
`performance.now` oracles. -/
noncomputable def getBestMove (rand clock : ℕ → ℚ) (board : Board)
    (currentPlayer : PColor) (config : AIConfig) (s : AIState) :
    Option Move × AIState :=
  let moves := getAllLegalMoves board currentPlayer
  if moves.isEmpty then (none, s)
  else if config.depth = 0 ∧ ¬config.useMCTS then
    let nonRepeating := moves.filter fun move =>
      let newBoard := simulateMove board move
      let nextPlayer := getNextPlayer currentPlayer newBoard
      !(wouldCauseRepetition s.posHist newBoard nextPlayer)
    let availableMoves := if ¬nonRepeating.isEmpty then nonRepeating else moves
    let idx := (⌊rand s.randIdx * (availableMoves.length : ℚ)⌋).toNat
    (availableMoves.get? idx, s.withRandIdx (s.randIdx + 1))
  else if config.useMCTS ∧ ¬config.useIterativeDeepening then
    mctsSearch board currentPlayer (config.mctsSimulations.getD 2000) s
  else if config.useIterativeDeepening ∧ truthyTL config.timeLimit then
    iterativeDeepening rand clock board currentPlayer config s
  else
    minimaxRoot rand board currentPlayer config s

/-- With the transposition table disabled, a depth-0 search returns the
leaf evaluation. -/
lemma minimaxSearch_depth0_noTT (config : AIConfig) (rootPlayer : PColor)
    (board : Board) (player : PColor) (alpha beta : ℚ) (im : Bool)
    (s : AIState) (hTT : config.useTT = false) :
    (minimaxSearch config rootPlayer 0 board player alpha beta im s).1 =
      minimaxLeafScore board player rootPlayer s.posHist.moveCount := by
  simp [minimaxSearch, minimaxTTProbe, hTT]

/-- With the transposition table disabled, a positive-depth search of a
position without legal moves returns the leaf evaluation. -/
lemma minimaxSearch_noMoves_noTT (config : AIConfig) (rootPlayer : PColor)
    (board : Board) (player : PColor) (alpha beta : ℚ) (im : Bool)
    (s : AIState) (d : ℕ) (hTT : config.useTT = false)
    (hmoves : getAllLegalMoves board player = []) :
    (minimaxSearch config rootPlayer (d + 1) board player alpha beta im s).1 =
      minimaxLeafScore board player rootPlayer s.posHist.moveCount := by
  simp [minimaxSearch, minimaxTTProbe, hTT, minimaxSearchBody, hmoves]

/-- The 4-player leaf formula of the minimax search for a non-root mover. -/
lemma minimaxLeafScore_4p (board : Board) (player rootPlayer : PColor) (mc : ℕ)
    (h4 : detectPlayerCount board = 4) (hne : player ≠ rootPlayer) :
    minimaxLeafScore board player rootPlayer mc =
      -(evaluateBoard board player mc) * (7 / 10) +
        evaluateBoard board rootPlayer mc * (3 / 10) := by
  simp [minimaxLeafScore, h4, hne]

/-- A 4-player position (three colors) in which red has already won: its
only piece stands on its goal row. -/
def c2Board : Board :=
  setCell (setCell (setCell emptyBoard 5 9 (some ⟨"red-square-1", .square, .red⟩))
    9 5 (some ⟨"green-square-1", .square, .green⟩))
    1 1 (some ⟨"blue-square-1", .square, .blue⟩)

/-- C2 counterexample: at a concrete 4-player position with mover green
and root red, the depth-0 value of `minimaxSearch` is NOT
`0.7·evaluateBoard(board, mover) − 0.3·evaluateBoard(board, root)` — the
code returns the negation `−0.7·own + 0.3·root`. -/
theorem C2_counterexample_minimax_leaf_sign :
    (minimaxSearch (AI_DIFFICULTIES .medium) PColor.red 0 c2Board PColor.green
      (-1000000) 1000000 false initialAIState).1 ≠
      evaluateBoard c2Board PColor.green initialAIState.posHist.moveCount *
          (7 / 10) -
        evaluateBoard c2Board PColor.red initialAIState.posHist.moveCount *
          (3 / 10) := by
  have hwin : checkWinner c2Board [] = some PColor.red := by decide
  have hmc : initialAIState.posHist.moveCount = 0 := rfl
  have hg : evaluateBoard c2Board PColor.green 0 = SCORE_LOSS := by
    simp [evaluateBoard, hwin]
  have hr : evaluateBoard c2Board PColor.red 0 = SCORE_WIN := by
    simp [evaluateBoard, hwin]
  have h0 := minimaxSearch_depth0_noTT (AI_DIFFICULTIES .medium) PColor.red
    c2Board PColor.green (-1000000) 1000000 false initialAIState (by decide)
  rw [h0, minimaxLeafScore_4p c2Board PColor.green PColor.red _ (by decide)
    (by decide), hmc, hg, hr]
  norm_num [SCORE_WIN, SCORE_LOSS]

/-- C2 (amended): in a 4-player position whose mover is not the root
player, the depth-0 (or no-moves) value of `minimaxSearch` (with the
transposition table idle) equals `−0.7·own + 0.3·root` — the negation of
the claimed mix, i.e. the same 70/30 blend expressed from the root's
minimizing perspective — while the MCTS rollout score before its
normalization to [0,1] equals `0.7·own − 0.3·root` exactly as claimed. -/
theorem C2_leaf_scores (board : Board) (player rootPlayer : PColor)
    (config : AIConfig) (s : AIState) (alpha beta : ℚ) (im : Bool)
    (h4 : detectPlayerCount board = 4) (hne : player ≠ rootPlayer)
    (hTT : config.useTT = false) :
    ((minimaxSearch config rootPlayer 0 board player alpha beta im s).1 =
      -(evaluateBoard board player s.posHist.moveCount) * (7 / 10) +
        evaluateBoard board rootPlayer s.posHist.moveCount * (3 / 10)) ∧
    (∀ d : ℕ, getAllLegalMoves board player = [] →
      (minimaxSearch config rootPlayer (d + 1) board player alpha beta im s).1 =
        -(evaluateBoard board player s.posHist.moveCount) * (7 / 10) +
          evaluateBoard board rootPlayer s.posHist.moveCount * (3 / 10)) ∧
    rollout board player rootPlayer s.posHist.moveCount =
      max 0 (min 1 (((evaluateBoard board player s.posHist.moveCount * (7 / 10) -
        evaluateBoard board rootPlayer s.posHist.moveCount * (3 / 10)) +
          100000) / 200000)) := by
  refine ⟨?_, ?_, ?_⟩
  · rw [minimaxSearch_depth0_noTT config rootPlayer board player alpha beta im s
      hTT, minimaxLeafScore_4p board player rootPlayer _ h4 hne]
  · intro d hmoves
    rw [minimaxSearch_noMoves_noTT config rootPlayer board player alpha beta im
      s d hTT hmoves, minimaxLeafScore_4p board player rootPlayer _ h4 hne]
  · simp [rollout, h4, hne]

/-- Witness for C2 (amended): the rollout equation at a concrete 4-player
position. -/
theorem C2_leaf_scores_witness :
    rollout c2Board PColor.green PColor.red initialAIState.posHist.moveCount =
      max 0 (min 1 (((evaluateBoard c2Board PColor.green
          initialAIState.posHist.moveCount * (7 / 10) -
        evaluateBoard c2Board PColor.red initialAIState.posHist.moveCount *
          (3 / 10)) + 100000) / 200000)) :=
  (C2_leaf_scores c2Board PColor.green PColor.red (AI_DIFFICULTIES .medium)
    initialAIState (-1000000) 1000000 false (by decide) (by decide)
    (by decide)).2.2

/-- Static ordering permutes the move list. -/
lemma orderMoves_perm (moves : List Move) (p : PColor) (hm : Option Move) :
    (orderMoves moves p hm).Perm moves := by
  unfold orderMoves
  have h2 := (List.mergeSort_perm (moves.map fun m => (m, scoreMove m p hm))
    fun a b => b.2 ≤ a.2).map Prod.fst
  simpa [List.map_map, Function.comp_def] using h2

/-- Advanced ordering permutes the move list. -/
lemma orderMovesAdvanced_perm (ks : Killers) (ht : HistoryT)
    (moves : List Move) (p : PColor) (depth : ℕ) (hm : Option Move) :
    (orderMovesAdvanced ks ht moves p depth hm).Perm moves := by
  unfold orderMovesAdvanced
  have h2 := (List.mergeSort_perm (moves.map fun m =>
    (m, scoreMove m p hm +
      (if (getKillers ks depth).any fun k =>
          k.fromPos.x = m.fromPos.x ∧ k.fromPos.y = m.fromPos.y ∧
            k.toPos.x = m.toPos.x ∧ k.toPos.y = m.toPos.y then 3000 else 0) +
      getHistoryScore ht m)) fun a b => b.2 ≤ a.2).map Prod.fst
  simpa [List.map_map, Function.comp_def] using h2

/-- Each root loop iteration appends exactly its move to the scored list. -/
lemma minimaxRootStep_fst (rand : ℕ → ℚ) (board : Board) (cp : PColor)
    (config : AIConfig) (acc : List (Move × ℚ) × ℚ × AIState) (move : Move) :
    ∃ q a2 s2, minimaxRootStep rand board cp config acc move =
      (acc.1 ++ [(move, q)], a2, s2) :=
  ⟨_, _, _, rfl⟩

/-- The root loop's scored list is the ordered move list. -/
lemma minimaxRoot_fold_fst (rand : ℕ → ℚ) (board : Board) (cp : PColor)
    (config : AIConfig) (l : List Move) (acc : List (Move × ℚ) × ℚ × AIState) :
    (l.foldl (minimaxRootStep rand board cp config) acc).1.map Prod.fst =
      acc.1.map Prod.fst ++ l := by
  induction l generalizing acc with
  | nil => simp
  | cons hd tl ih =>
      obtain ⟨q, a2, s2, hstep⟩ := minimaxRootStep_fst rand board cp config acc hd
      simp only [List.foldl_cons, hstep, ih]
      simp

/-- The head of a merge sort is an element of the input. -/
lemma head_mergeSort_mem {α : Type} (l : List α) (le : α → α → Bool) (x : α)
    (h : (l.mergeSort le).head? = some x) : x ∈ l := by
  have hp := List.mergeSort_perm l le
  rcases hm : l.mergeSort le with _ | ⟨a, t⟩
  · rw [hm] at h
    exact absurd h (by simp)
  · rw [hm] at h hp
    simp only [List.head?_cons, Option.some.injEq] at h
    refine hp.mem_iff.mp ?_
    rw [← h]
    exact List.mem_cons_self a t

/-- A merge sort of a nonempty list is nonempty. -/
lemma mergeSort_ne_nil {α : Type} (l : List α) (le : α → α → Bool)
    (h : l ≠ []) : l.mergeSort le ≠ [] := by
  intro hc
  have hp := List.mergeSort_perm l le
  rw [hc] at hp
  exact h hp.symm.eq_nil

/-- Core of the root search: the finish stage picks a member of the legal
move list when the loop ran over a permutation of it. -/
lemma minimaxRootFinish_core (rand : ℕ → ℚ) (board : Board) (cp : PColor)
    (config : AIConfig) (s : AIState) (moves2 : List Move)
    (hperm : moves2.Perm (getAllLegalMoves board cp))
    (hmv : getAllLegalMoves board cp ≠ []) :
    ∃ m, (minimaxRootFinish board cp config
      (moves2.foldl (minimaxRootStep rand board cp config)
        ([], -INFINITY, s))).1 = some m ∧
      m ∈ getAllLegalMoves board cp := by
  have hfold := minimaxRoot_fold_fst rand board cp config moves2
    ([], -INFINITY, s)
  simp only [List.map_nil, List.nil_append] at hfold
  have hne2 : (moves2.foldl (minimaxRootStep rand board cp config)
      ([], -INFINITY, s)).1 ≠ [] := by
    intro hc
    rw [hc] at hfold
    simp only [List.map_nil] at hfold
    apply hmv
    have hm0 : moves2 = [] := hfold.symm
    rw [hm0] at hperm
    exact hperm.symm.eq_nil
  rcases hhead : ((moves2.foldl (minimaxRootStep rand board cp config)
      ([], -INFINITY, s)).1.mergeSort fun a b => b.2 ≤ a.2).head? with _ | top
  · exfalso
    have hne3 := mergeSort_ne_nil _ (fun a b : Move × ℚ => b.2 ≤ a.2) hne2
    rcases hms : ((moves2.foldl (minimaxRootStep rand board cp config)
        ([], -INFINITY, s)).1.mergeSort fun a b => b.2 ≤ a.2) with _ | ⟨a, t⟩
    · exact hne3 hms
    · rw [hms] at hhead
      simp at hhead
  · refine ⟨top.1, ?_, ?_⟩
    · simp only [minimaxRootFinish, hhead]
      rfl
    · have hmem := head_mergeSort_mem _ _ _ hhead
      have hmm : top.1 ∈ (moves2.foldl (minimaxRootStep rand board cp config)
          ([], -INFINITY, s)).1.map Prod.fst :=
        List.mem_map_of_mem Prod.fst hmem
      rw [hfold] at hmm
      exact hperm.mem_iff.mp hmm

/-- With legal moves available, `minimaxRoot` returns one of them. -/
lemma minimaxRoot_core (rand : ℕ → ℚ) (board : Board) (cp : PColor)
    (config : AIConfig) (s : AIState)
    (hmv : getAllLegalMoves board cp ≠ []) :
    ∃ m, (minimaxRoot rand board cp config s).1 = some m ∧
      m ∈ getAllLegalMoves board cp := by
  unfold minimaxRoot
  rw [if_neg (by simpa [List.isEmpty_iff] using hmv)]
  by_cases hTT : config.useTT <;>
    simp only [hTT, if_true, if_false, Bool.false_eq_true, reduceIte]
  · exact minimaxRootFinish_core rand board cp config s _
      (orderMovesAdvanced_perm _ _ _ _ _ _) hmv
  · exact minimaxRootFinish_core rand board cp config s _
      (orderMoves_perm _ _ _) hmv
/-- A simulation never changes the originating move of the node it runs
on. -/
lemma runSim_move (rp : PColor) (is4P : Bool) (mc : ℕ) (t : MCTSTree) :
    ((runSim rp is4P mc t).1).move = t.move := by
  cases t with
  | node b p m v w u c =>
      rw [runSim]
      split
      · rfl
      · split
        · split <;> rfl
        · rfl

/-- Running a simulation inside a child list preserves its length. -/
lemma runSimList_length (rp : PColor) (is4P : Bool) (mc : ℕ) :
    ∀ (cs : List MCTSTree) (i : ℕ),
      ((runSimList rp is4P mc cs i).1).length = cs.length
  | [], i => by rw [runSimList]
  | c :: cs, 0 => by rw [runSimList]; simp
  | c :: cs, i + 1 => by
      rw [runSimList]
      simpa using runSimList_length rp is4P mc cs i

/-- Every element of the updated child list shares its originating move
with some element of the input list. -/
lemma runSimList_moves (rp : PColor) (is4P : Bool) (mc : ℕ) :
    ∀ (cs : List MCTSTree) (i : ℕ) (c' : MCTSTree),
      c' ∈ (runSimList rp is4P mc cs i).1 → ∃ c ∈ cs, c'.move = c.move
  | [], i, c', h => by rw [runSimList] at h; simp at h
  | c :: cs, 0, c', h => by
      rw [runSimList] at h
      simp only [List.mem_cons] at h
      rcases h with h | h
      · exact ⟨c, List.mem_cons_self c cs, by rw [h]; exact runSim_move rp is4P mc c⟩
      · exact ⟨c', List.mem_cons_of_mem c h, rfl⟩
  | c :: cs, i + 1, c', h => by
      rw [runSimList] at h
      simp only [List.mem_cons] at h
      rcases h with h | h
      · exact ⟨c, List.mem_cons_self c cs, by rw [h]⟩
      · obtain ⟨c0, hc0, hm⟩ := runSimList_moves rp is4P mc cs i c' h
        exact ⟨c0, List.mem_cons_of_mem c hc0, hm⟩

/-- Invariant of the MCTS root: untried moves and all children's
originating moves come from the legal move list. -/
def rootOK (legal : List Move) (t : MCTSTree) : Prop :=
  (∀ m ∈ t.untried, m ∈ legal) ∧
    ∀ c ∈ t.children, ∃ m, c.move = some m ∧ m ∈ legal

/-- One simulation preserves the root invariant. -/
lemma runSim_rootOK (rp : PColor) (is4P : Bool) (mc : ℕ) (legal : List Move)
    (t : MCTSTree) (h : rootOK legal t) :
    rootOK legal ((runSim rp is4P mc t).1) := by
  obtain ⟨hu, hc⟩ := h
  cases t with
  | node b p m v w u c =>
      simp only [MCTSTree.untried, MCTSTree.children] at hu hc
      rw [runSim]
      split
      · refine ⟨hu, ?_⟩
        intro c' hc'
        obtain ⟨c0, hc0, hm⟩ := runSimList_moves rp is4P mc c
          (selectChildIdx (MCTSTree.node b p m v w u c)) c' hc'
        obtain ⟨m0, hm0, hml⟩ := hc c0 hc0
        exact ⟨m0, by rw [hm]; exact hm0, hml⟩
      · split
        · split
          · rename_i mv hgl
            refine ⟨?_, ?_⟩
            · intro m1 hm1
              exact hu m1 (List.dropLast_subset u hm1)
            · intro c' hc'
              rw [show (MCTSTree.node b p m (v + 1) _ u.dropLast _).children =
                  c ++ [MCTSTree.node (simulateMove b mv)
                    (getNextPlayer p (simulateMove b mv)) (some mv) 1 _
                    (getAllLegalMoves (simulateMove b mv)
                      (getNextPlayer p (simulateMove b mv))) []] from rfl,
                List.mem_append] at hc'
              rcases hc' with hc' | hc'
              · exact hc c' hc'
              · simp only [List.mem_singleton] at hc'
                subst hc'
                exact ⟨mv, rfl, hu mv (List.mem_of_mem_getLast? hgl)⟩
          · exact ⟨hu, hc⟩
        · exact ⟨hu, hc⟩

/-- A simulation on a node with untried moves or children leaves it with
at least one child. -/
lemma runSim_children_ne (rp : PColor) (is4P : Bool) (mc : ℕ) (t : MCTSTree)
    (h : t.untried ≠ [] ∨ t.children ≠ []) :
    ((runSim rp is4P mc t).1).children ≠ [] := by
  cases t with
  | node b p m v w u c =>
      simp only [MCTSTree.untried, MCTSTree.children] at h
      rw [runSim]
      split
      · rename_i h1
        intro hnil
        have hl := runSimList_length rp is4P mc c
          (selectChildIdx (MCTSTree.node b p m v w u c))
        rw [show ((runSimList rp is4P mc c
            (selectChildIdx (MCTSTree.node b p m v w u c))).1) = [] from hnil]
          at hl
        have hc0 : c = [] := List.length_eq_zero.mp hl.symm
        rw [hc0] at h1
        simp at h1
      · split
        · split
          · rename_i mv hgl
            simp [MCTSTree.children]
          · rename_i hne junk hgl
            exact absurd (List.getLast?_eq_none_iff.mp hgl)
              (by simpa [List.isEmpty_iff] using hne)
        · rename_i h1 h2
          exfalso
          rw [not_not] at h2
          have hu : u = [] := List.isEmpty_iff.mp h2
          have hcnil : c.isEmpty = true := by
            by_contra hcc
            exact h1 ⟨h2, hcc⟩
          have hc0 : c = [] := List.isEmpty_iff.mp hcnil
          rcases h with h | h
          · exact h hu
          · exact h hc0

/-- Iterated simulations preserve the invariant and child-nonemptiness. -/
lemma runSims_ok (rp : PColor) (is4P : Bool) (mc : ℕ) (legal : List Move) :
    ∀ (n : ℕ) (t : MCTSTree), rootOK legal t → t.children ≠ [] →
      rootOK legal (runSims rp is4P mc n t) ∧
        (runSims rp is4P mc n t).children ≠ []
  | 0, t, h, hc => by rw [runSims]; exact ⟨h, hc⟩
  | n + 1, t, h, hc => by
      rw [runSims]
      exact runSims_ok rp is4P mc legal n _ (runSim_rootOK rp is4P mc legal t h)
        (runSim_children_ne rp is4P mc t (Or.inr hc))

/-- At least one simulation from a root with untried moves yields children
and keeps the invariant. -/
lemma runSims_succ_ok (rp : PColor) (is4P : Bool) (mc : ℕ)
    (legal : List Move) (n : ℕ) (t : MCTSTree) (h : rootOK legal t)
    (hu : t.untried ≠ []) :
    rootOK legal (runSims rp is4P mc (n + 1) t) ∧
      (runSims rp is4P mc (n + 1) t).children ≠ [] := by
  rw [runSims]
  exact runSims_ok rp is4P mc legal n _ (runSim_rootOK rp is4P mc legal t h)
    (runSim_children_ne rp is4P mc t (Or.inl hu))

/-- The discounted visits-times-win-rate score of a root child in the
final MCTS selection. -/
def mctsScore (s : AIState) (child : MCTSTree) (mv : Move) : ℚ :=
  let winRate : ℚ :=
    if 0 < child.visits then child.wins / child.visits else 0
  let score0 := (child.visits : ℚ) * winRate
  let score1 :=
    if isReverseOfRecent s.mctsRecentMoves mv ∨
        isSameMoveRecent s.mctsRecentMoves mv then
      score0 * (3 / 10)
    else score0
  let positionPenalty := getCombinedPenalty s.posHist child.board child.player
  let score2 :=
    if 0 < positionPenalty then score1 - positionPenalty / 1000 else score1
  if wouldCauseRepetition s.posHist child.board child.player then
    score2 * (1 / 10)
  else score2

/-- A child without an originating move is skipped by the selection
fold. -/
lemma mctsChoiceStep_of_none (s : AIState) (acc : Option (MCTSTree × ℚ))
    (child : MCTSTree) (h : child.move = none) :
    mctsChoiceStep s acc child = acc := by
  unfold mctsChoiceStep
  rw [h]

/-- The selection fold picks the first child with a move. -/
lemma mctsChoiceStep_of_first (s : AIState) (child : MCTSTree) (mv : Move)
    (h : child.move = some mv) :
    mctsChoiceStep s none child = some (child, mctsScore s child mv) := by
  unfold mctsChoiceStep
  rw [h]
  rfl

/-- The selection fold keeps the strict maximum. -/
lemma mctsChoiceStep_of_best (s : AIState) (child : MCTSTree) (mv : Move)
    (best : MCTSTree × ℚ) (h : child.move = some mv) :
    mctsChoiceStep s (some best) child =
      if best.2 < mctsScore s child mv then
        some (child, mctsScore s child mv)
      else some best := by
  unfold mctsChoiceStep
  rw [h]
  rfl

/-- One step of the final-selection fold either keeps the accumulator or
selects the current child. -/
lemma mctsChoiceStep_cases (s : AIState) (acc : Option (MCTSTree × ℚ))
    (child : MCTSTree) :
    mctsChoiceStep s acc child = acc ∨
      ∃ q, mctsChoiceStep s acc child = some (child, q) := by
  rcases hm : child.move with _ | mv
  · exact Or.inl (mctsChoiceStep_of_none s acc child hm)
  · rcases acc with _ | best
    · exact Or.inr ⟨_, mctsChoiceStep_of_first s child mv hm⟩
    · rw [mctsChoiceStep_of_best s child mv best hm]
      split_ifs with h
      · exact Or.inr ⟨_, rfl⟩
      · exact Or.inl rfl

/-- The final-selection fold started from a selected pair returns a pair
whose tree is the start tree or comes from the list. -/
lemma foldl_choice_some (s : AIState) :
    ∀ (cs : List MCTSTree) (p : MCTSTree × ℚ),
      ∃ p', cs.foldl (mctsChoiceStep s) (some p) = some p' ∧
        (p'.1 = p.1 ∨ p'.1 ∈ cs)
  | [], p => ⟨p, rfl, Or.inl rfl⟩
  | c :: cs, p => by
      simp only [List.foldl_cons]
      rcases mctsChoiceStep_cases s (some p) c with h | ⟨q, h⟩
      · rw [h]
        obtain ⟨p', hp', hmem⟩ := foldl_choice_some s cs p
        exact ⟨p', hp', hmem.imp id (List.mem_cons_of_mem c)⟩
      · rw [h]
        obtain ⟨p', hp', hmem⟩ := foldl_choice_some s cs (c, q)
        refine ⟨p', hp', Or.inr ?_⟩
        rcases hmem with hmem | hmem
        · rw [hmem]; exact List.mem_cons_self c cs
        · exact List.mem_cons_of_mem c hmem

/-- The final selection over a nonempty child list in which every child
has an originating move picks one of the children. -/
lemma mctsFinalChoice_mem (s : AIState) (cs : List MCTSTree)
    (hne : cs ≠ []) (hmv : ∀ c ∈ cs, ∃ m, c.move = some m) :
    ∃ c, mctsFinalChoice s cs = some c ∧ c ∈ cs := by
  rcases cs with _ | ⟨c, cs⟩
  · exact absurd rfl hne
  · obtain ⟨m, hm⟩ := hmv c (List.mem_cons_self c cs)
    unfold mctsFinalChoice
    rw [List.foldl_cons, mctsChoiceStep_of_first s c m hm]
    obtain ⟨p', hp', hmem⟩ := foldl_choice_some s cs (c, mctsScore s c m)
    rw [hp']
    refine ⟨p'.1, rfl, ?_⟩
    rcases hmem with h | h
    · rw [h]; exact List.mem_cons_self c cs
    · exact List.mem_cons_of_mem c h

/-- With at least one legal move and at least one simulation, MCTS returns
a legal move. -/
lemma mctsSearch_spec (board : Board) (cp : PColor) (n : ℕ) (s : AIState)
    (hmv : getAllLegalMoves board cp ≠ []) :
    ∃ m, (mctsSearch board cp (n + 1) s).1 = some m ∧
      m ∈ getAllLegalMoves board cp := by
  unfold mctsSearch
  simp only [createNode, MCTSTree.untried]
  rw [if_neg (by simpa [List.isEmpty_iff] using hmv)]
  by_cases hlen : (getAllLegalMoves board cp).length = 1
  · rw [if_pos hlen]
    rcases hh : (getAllLegalMoves board cp).head? with _ | onlyMove
    · exact absurd (List.head?_eq_none_iff.mp hh) hmv
    · exact ⟨onlyMove, rfl, List.mem_of_mem_head? hh⟩
  · rw [if_neg hlen]
    have hroot : rootOK (getAllLegalMoves board cp)
        (MCTSTree.node board cp none 0 0 (getAllLegalMoves board cp) []) :=
      ⟨fun m hm => hm, fun c hc => absurd hc (List.not_mem_nil c)⟩
    obtain ⟨hok, hcne⟩ := runSims_succ_ok cp
      (decide (detectPlayerCount board = 4)) s.posHist.moveCount
      (getAllLegalMoves board cp) n
      (MCTSTree.node board cp none 0 0 (getAllLegalMoves board cp) [])
      hroot (by simpa [MCTSTree.untried] using hmv)
    obtain ⟨best, hbest, hbmem⟩ := mctsFinalChoice_mem s _ hcne
      (fun c hc => (hok.2 c hc).elim fun m h => ⟨m, h.1⟩)
    obtain ⟨m, hm, hml⟩ := hok.2 best hbmem
    refine ⟨m, ?_, hml⟩
    rw [hbest]
    show (match best.move with
      | some m2 => (some m2, recordMoveMcts s m2)
      | none => ((none : Option Move), s)).1 = some m
    rw [hm]
/-- A fold preserves any invariant its step preserves. -/
lemma foldl_preserve {α β : Type} (f : α → β → α) (P : α → Prop)
    (hf : ∀ a b, P a → P (f a b)) :
    ∀ (l : List β) (a : α), P a → P (l.foldl f a)
  | [], _, h => h
  | b :: l, a, h => foldl_preserve f P hf l (f a b) (hf a b h)

/-- The deepening step with its local bindings expanded. -/
lemma iterativeDeepeningStep_eq (rand clock : ℕ → ℚ) (board : Board)
    (cp : PColor) (config : AIConfig) (startTime : ℚ)
    (acc : Option Move × AIState × Bool) (i : ℕ) :
    iterativeDeepeningStep rand clock board cp config startTime acc i =
      if acc.2.2 then acc
      else if truthyTL config.timeLimit ∧
          config.timeLimit.getD 0 * (4 / 5) ≤
            clock acc.2.1.clockIdx - startTime then
        (acc.1, acc.2.1.withClockIdx (acc.2.1.clockIdx + 1), true)
      else
        match (minimaxRoot rand board cp (config.withDepth (i + 1))
            (acc.2.1.withClockIdx (acc.2.1.clockIdx + 1))).1 with
        | some m => (some m, (minimaxRoot rand board cp
            (config.withDepth (i + 1))
            (acc.2.1.withClockIdx (acc.2.1.clockIdx + 1))).2, false)
        | none => (acc.1, (minimaxRoot rand board cp
            (config.withDepth (i + 1))
            (acc.2.1.withClockIdx (acc.2.1.clockIdx + 1))).2, false) := rfl

/-- Each deepening iteration keeps an already chosen legal move. -/
lemma iterativeDeepeningStep_preserve (rand clock : ℕ → ℚ) (board : Board)
    (cp : PColor) (config : AIConfig) (startTime : ℚ)
    (hmv : getAllLegalMoves board cp ≠ [])
    (acc : Option Move × AIState × Bool) (i : ℕ)
    (h : ∃ m, acc.1 = some m ∧ m ∈ getAllLegalMoves board cp) :
    ∃ m, (iterativeDeepeningStep rand clock board cp config startTime
        acc i).1 = some m ∧ m ∈ getAllLegalMoves board cp := by
  obtain ⟨m, hm, hml⟩ := h
  rw [iterativeDeepeningStep_eq]
  split_ifs with h1 h2
  · exact ⟨m, hm, hml⟩
  · exact ⟨m, hm, hml⟩
  · obtain ⟨m2, hm2, hml2⟩ := minimaxRoot_core rand board cp
      (config.withDepth (i + 1))
      (acc.2.1.withClockIdx (acc.2.1.clockIdx + 1)) hmv
    rw [hm2]
    exact ⟨m2, rfl, hml2⟩

/-- The first deepening iteration, when the soft time check passes, runs
the root search and obtains a legal move. -/
lemma iterativeDeepeningStep_first (rand clock : ℕ → ℚ) (board : Board)
    (cp : PColor) (config : AIConfig) (startTime : ℚ) (s1 : AIState)
    (hmv : getAllLegalMoves board cp ≠ [])
    (hclk : ¬(truthyTL config.timeLimit = true ∧
        config.timeLimit.getD 0 * (4 / 5) ≤ clock s1.clockIdx - startTime)) :
    ∃ m, (iterativeDeepeningStep rand clock board cp config startTime
        (none, s1, false) 0).1 = some m ∧
      m ∈ getAllLegalMoves board cp := by
  rw [iterativeDeepeningStep_eq]
  simp only [Bool.false_eq_true, if_false]
  rw [if_neg hclk]
  obtain ⟨m2, hm2, hml2⟩ := minimaxRoot_core rand board cp
    (config.withDepth (0 + 1)) (s1.withClockIdx (s1.clockIdx + 1)) hmv
  rw [hm2]
  exact ⟨m2, rfl, hml2⟩

/-- Iterative deepening with its local bindings expanded. -/
lemma iterativeDeepening_eq (rand clock : ℕ → ℚ) (board : Board)
    (cp : PColor) (config : AIConfig) (s : AIState) :
    iterativeDeepening rand clock board cp config s =
      (((List.range config.depth).foldl
        (iterativeDeepeningStep rand clock board cp config (clock s.clockIdx))
        (none, (s.withClockIdx (s.clockIdx + 1)).withKillers [], false)).1,
       ((List.range config.depth).foldl
        (iterativeDeepeningStep rand clock board cp config (clock s.clockIdx))
        (none, (s.withClockIdx (s.clockIdx + 1)).withKillers [],
          false)).2.1) := rfl

/-- With legal moves, positive depth and an unexpired first time check,
iterative deepening returns a legal move. -/
lemma iterativeDeepening_some (rand clock : ℕ → ℚ) (board : Board)
    (cp : PColor) (config : AIConfig) (s : AIState) (d : ℕ)
    (hd : config.depth = d + 1)
    (hmv : getAllLegalMoves board cp ≠ [])
    (hclk : ¬(truthyTL config.timeLimit = true ∧
      config.timeLimit.getD 0 * (4 / 5) ≤
        clock (s.clockIdx + 1) - clock s.clockIdx)) :
    ∃ m, (iterativeDeepening rand clock board cp config s).1 = some m ∧
      m ∈ getAllLegalMoves board cp := by
  rw [iterativeDeepening_eq, hd, List.range_succ_eq_map, List.foldl_cons]
  have h0 := iterativeDeepeningStep_first rand clock board cp config
    (clock s.clockIdx) ((s.withClockIdx (s.clockIdx + 1)).withKillers [])
    hmv (by simpa [AIState.withClockIdx, AIState.withKillers] using hclk)
  obtain ⟨m, hm, hml⟩ := foldl_preserve
    (iterativeDeepeningStep rand clock board cp config (clock s.clockIdx))
    (fun acc => ∃ m, acc.1 = some m ∧ m ∈ getAllLegalMoves board cp)
    (fun a b => iterativeDeepeningStep_preserve rand clock board cp config
      (clock s.clockIdx) hmv a b)
    ((List.range d).map Nat.succ) _ h0
  exact ⟨m, hm, hml⟩

/-- A uniform random index with a [0,1) random value stays in range. -/
lemma floor_rand_lt (r : ℚ) (n : ℕ) (h0 : 0 ≤ r) (h1 : r < 1)
    (hn : 0 < n) : (⌊r * (n : ℚ)⌋).toNat < n := by
  have hnq : (0 : ℚ) < (n : ℚ) := by exact_mod_cast hn
  have hlt : r * (n : ℚ) < (n : ℚ) := by nlinarith
  have hfl : ⌊r * (n : ℚ)⌋ < (n : ℤ) := Int.floor_lt.mpr (by exact_mod_cast hlt)
  have hge : (0 : ℤ) ≤ ⌊r * (n : ℚ)⌋ := Int.floor_nonneg.mpr (by positivity)
  omega

/-- The random pick of the depth-0 beginner branch: an index below the
length of the chosen candidate list yields one of the legal moves. -/
lemma randomBranch_spec (r : ℚ) (l fl : List Move)
    (hsub : ∀ x ∈ fl, x ∈ l) (hl : l ≠ []) (h0 : 0 ≤ r) (h1 : r < 1) :
    ∃ m, (if ¬fl.isEmpty then fl else l).get?
        ((⌊r * (((if ¬fl.isEmpty then fl else l).length : ℕ) : ℚ)⌋).toNat) =
      some m ∧ m ∈ l := by
  have halne : (if ¬fl.isEmpty then fl else l) ≠ [] := by
    split_ifs with h
    · exact hl
    · simpa [List.isEmpty_iff] using h
  have hsub2 : ∀ x ∈ (if ¬fl.isEmpty then fl else l), x ∈ l := by
    split_ifs with h
    · exact fun x hx => hx
    · exact hsub
  have hlen : 0 < (if ¬fl.isEmpty then fl else l).length :=
    List.length_pos.mpr halne
  have hidx := floor_rand_lt r (if ¬fl.isEmpty then fl else l).length h0 h1
    hlen
  exact ⟨(if ¬fl.isEmpty then fl else l).get ⟨_, hidx⟩,
    List.get?_eq_get hidx,
    hsub2 _ (List.get_mem _ _ _)⟩

/-- A depth-0 non-MCTS configuration picks a random legal move. -/
lemma getBestMove_random (rand clock : ℕ → ℚ) (board : Board) (cp : PColor)
    (config : AIConfig) (s : AIState) (hd : config.depth = 0)
    (hm : config.useMCTS = false)
    (hmv : getAllLegalMoves board cp ≠ [])
    (h0 : 0 ≤ rand s.randIdx) (h1 : rand s.randIdx < 1) :
    ∃ m, (getBestMove rand clock board cp config s).1 = some m ∧
      m ∈ getAllLegalMoves board cp := by
  unfold getBestMove
  rw [if_neg (by simpa [List.isEmpty_iff] using hmv)]
  rw [if_pos (show config.depth = 0 ∧ ¬config.useMCTS = true by
    simp [hd, hm])]
  exact randomBranch_spec (rand s.randIdx) (getAllLegalMoves board cp) _
    (fun x hx => List.mem_of_mem_filter hx) hmv h0 h1

/-- When all dispatch guards fail, the plain root search runs and returns
a legal move. -/
lemma getBestMove_viaRoot (rand clock : ℕ → ℚ) (board : Board) (cp : PColor)
    (config : AIConfig) (s : AIState)
    (hg2 : ¬(config.depth = 0 ∧ ¬config.useMCTS = true))
    (hg3 : ¬(config.useMCTS = true ∧ ¬config.useIterativeDeepening = true))
    (hg4 : ¬(config.useIterativeDeepening = true ∧
      truthyTL config.timeLimit = true))
    (hmv : getAllLegalMoves board cp ≠ []) :
    ∃ m, (getBestMove rand clock board cp config s).1 = some m ∧
      m ∈ getAllLegalMoves board cp := by
  unfold getBestMove
  rw [if_neg (by simpa [List.isEmpty_iff] using hmv),
    if_neg hg2, if_neg hg3, if_neg hg4]
  exact minimaxRoot_core rand board cp config s hmv

/-- An MCTS configuration without iterative deepening dispatches to the
Monte Carlo search, which returns a legal move. -/
lemma getBestMove_viaMCTS (rand clock : ℕ → ℚ) (board : Board) (cp : PColor)
    (config : AIConfig) (s : AIState) (n : ℕ)
    (hg2 : ¬(config.depth = 0 ∧ ¬config.useMCTS = true))
    (hg3 : config.useMCTS = true ∧ ¬config.useIterativeDeepening = true)
    (hsim : config.mctsSimulations.getD 2000 = n + 1)
    (hmv : getAllLegalMoves board cp ≠ []) :
    ∃ m, (getBestMove rand clock board cp config s).1 = some m ∧
      m ∈ getAllLegalMoves board cp := by
  unfold getBestMove
  rw [if_neg (by simpa [List.isEmpty_iff] using hmv),
    if_neg hg2, if_pos hg3, hsim]
  exact mctsSearch_spec board cp n s hmv

/-- An iterative-deepening configuration with a truthy time limit
dispatches to the deepening loop, which returns a legal move. -/
lemma getBestMove_viaID (rand clock : ℕ → ℚ) (board : Board) (cp : PColor)
    (config : AIConfig) (s : AIState) (d : ℕ)
    (hg2 : ¬(config.depth = 0 ∧ ¬config.useMCTS = true))
    (hg3 : ¬(config.useMCTS = true ∧ ¬config.useIterativeDeepening = true))
    (hg4 : config.useIterativeDeepening = true ∧
      truthyTL config.timeLimit = true)
    (hd : config.depth = d + 1)
    (hmv : getAllLegalMoves board cp ≠ [])
    (hclk : ¬(truthyTL config.timeLimit = true ∧
      config.timeLimit.getD 0 * (4 / 5) ≤
        clock (s.clockIdx + 1) - clock s.clockIdx)) :
    ∃ m, (getBestMove rand clock board cp config s).1 = some m ∧
      m ∈ getAllLegalMoves board cp := by
  unfold getBestMove
  rw [if_neg (by simpa [List.isEmpty_iff] using hmv),
    if_neg hg2, if_neg hg3, if_pos hg4]
  exact iterativeDeepening_some rand clock board cp config s d hd hmv hclk
/-- C3: for every board, color and difficulty configuration from
`AI_DIFFICULTIES`, `getBestMove` returns null exactly when there is no
legal move, and any returned move is one of the legal moves.  The random
oracle is assumed to produce values in [0,1) as `Math.random` does, and
consecutive clock readings are assumed to stay within 2400 ms, below 80%
of every configured time limit, so the first deepening iteration always
runs. -/
theorem C3_getBestMove_legal (rand clock : ℕ → ℚ) (board : Board)
    (cp : PColor) (diff : AIDifficulty) (s : AIState)
    (hrand : ∀ n, 0 ≤ rand n ∧ rand n < 1)
    (hclock : ∀ n, clock (n + 1) - clock n < 2400) :
    ((getBestMove rand clock board cp (AI_DIFFICULTIES diff) s).1 = none ↔
      getAllLegalMoves board cp = []) ∧
    ∀ m, (getBestMove rand clock board cp (AI_DIFFICULTIES diff) s).1 =
        some m → m ∈ getAllLegalMoves board cp := by
  by_cases hmv : getAllLegalMoves board cp = []
  · have hnone : (getBestMove rand clock board cp (AI_DIFFICULTIES diff)
        s).1 = none := by
      unfold getBestMove
      rw [if_pos (by simp [List.isEmpty_iff, hmv])]
    refine ⟨by rw [hnone]; simp [hmv], ?_⟩
    intro m hm2
    rw [hnone] at hm2
    exact absurd hm2 (by simp)
  · have hsome : ∃ m, (getBestMove rand clock board cp
        (AI_DIFFICULTIES diff) s).1 = some m ∧
        m ∈ getAllLegalMoves board cp := by
      cases diff with
      | beginner =>
          exact getBestMove_random rand clock board cp _ s rfl rfl hmv
            (hrand s.randIdx).1 (hrand s.randIdx).2
      | easy =>
          exact getBestMove_viaRoot rand clock board cp _ s
            (by simp [AI_DIFFICULTIES]) (by simp [AI_DIFFICULTIES])
            (by simp [AI_DIFFICULTIES, truthyTL]) hmv
      | medium =>
          exact getBestMove_viaRoot rand clock board cp _ s
            (by simp [AI_DIFFICULTIES]) (by simp [AI_DIFFICULTIES])
            (by simp [AI_DIFFICULTIES, truthyTL]) hmv
      | challenging =>
          exact getBestMove_viaRoot rand clock board cp _ s
            (by simp [AI_DIFFICULTIES]) (by simp [AI_DIFFICULTIES])
            (by simp [AI_DIFFICULTIES, truthyTL]) hmv
      | hard =>
          refine getBestMove_viaID rand clock board cp _ s 3
            (by simp [AI_DIFFICULTIES]) (by simp [AI_DIFFICULTIES])
            ⟨rfl, by simp [AI_DIFFICULTIES, truthyTL]⟩ rfl hmv ?_
          rintro ⟨-, hle⟩
          have hgap := hclock s.clockIdx
          rw [show ((AI_DIFFICULTIES .hard).timeLimit.getD 0 : ℚ) *
              (4 / 5) = 2400 by norm_num [AI_DIFFICULTIES]] at hle
          linarith
      | master =>
          exact getBestMove_viaMCTS rand clock board cp _ s 1999
            (by simp [AI_DIFFICULTIES]) ⟨rfl, by simp [AI_DIFFICULTIES]⟩
            (by norm_num [AI_DIFFICULTIES]) hmv
      | grandmaster =>
          refine getBestMove_viaID rand clock board cp _ s 4
            (by simp [AI_DIFFICULTIES]) (by simp [AI_DIFFICULTIES])
            ⟨rfl, by simp [AI_DIFFICULTIES, truthyTL]⟩ rfl hmv ?_
          rintro ⟨-, hle⟩
          have hgap := hclock s.clockIdx
          rw [show ((AI_DIFFICULTIES .grandmaster).timeLimit.getD 0 : ℚ) *
              (4 / 5) = 4000 by norm_num [AI_DIFFICULTIES]] at hle
          linarith
    obtain ⟨m, hm, hml⟩ := hsome
    refine ⟨by rw [hm]; simp [hmv], ?_⟩
    intro m2 hm2
    rw [hm] at hm2
    injection hm2 with h
    exact h ▸ hml

/-- Witness: the C3 theorem applied at the zero oracles, the empty board
and the beginner difficulty. -/
theorem C3_getBestMove_legal_witness :
    ((getBestMove (fun _ => 0) (fun _ => 0) emptyBoard PColor.red
        (AI_DIFFICULTIES .beginner) initialAIState).1 = none ↔
      getAllLegalMoves emptyBoard PColor.red = []) ∧
    ∀ m, (getBestMove (fun _ => 0) (fun _ => 0) emptyBoard PColor.red
        (AI_DIFFICULTIES .beginner) initialAIState).1 = some m →
      m ∈ getAllLegalMoves emptyBoard PColor.red :=
  C3_getBestMove_legal (fun _ => 0) (fun _ => 0) emptyBoard PColor.red
    .beginner initialAIState (fun _ => by norm_num) (fun _ => by norm_num)
